import Mathlib

/-!
Verification of the WhatsApp chat-export parser and storage layer of this
repository.  Strings are modelled as `List Char`; the JavaScript string and
regular-expression primitives used by the source are embedded as executable
Lean functions over `List Char`.
-/

set_option maxRecDepth 10000

/-- Character class of the JavaScript regular-expression escape `\s` and of
`String.prototype.trim` (ECMAScript WhiteSpace and LineTerminator code
points). -/
def jsWhitespace (c : Char) : Bool :=
  c.val = 0x09 || c.val = 0x0A || c.val = 0x0B || c.val = 0x0C || c.val = 0x0D ||
  c.val = 0x20 || c.val = 0xA0 || c.val = 0x1680 ||
  (0x2000 ≤ c.val && c.val ≤ 0x200A) ||
  c.val = 0x2028 || c.val = 0x2029 || c.val = 0x202F || c.val = 0x205F ||
  c.val = 0x3000 || c.val = 0xFEFF

/-- The bidirectional-control code points removed by `sanitizeContent`
(source: the character class `[‎‏‪-‮⁦-⁩]`). -/
def isBidiControl (c : Char) : Bool :=
  c.val = 0x200E || c.val = 0x200F ||
  (0x202A ≤ c.val && c.val ≤ 0x202E) ||
  (0x2066 ≤ c.val && c.val ≤ 0x2069)

/-- Drop leading JavaScript whitespace. -/
def trimLeftWs (l : List Char) : List Char := l.dropWhile jsWhitespace

/-- Drop trailing JavaScript whitespace. -/
def trimRightWs (l : List Char) : List Char :=
  (l.reverse.dropWhile jsWhitespace).reverse

/-- Embedding of `String.prototype.trim`. -/
def jsTrim (l : List Char) : List Char := trimRightWs (trimLeftWs l)

/-- Embedding of `sanitizeContent` (src/modules/parser/sanitizer.ts):
removes the bidirectional-control characters and trims leading/trailing
whitespace.  The JavaScript `if (!content) return ''` branch coincides with
the general path on the empty string. -/
def sanitizeContent (content : List Char) : List Char :=
  jsTrim (content.filter (fun c => !isBidiControl c))

theorem dropWhile_self_idem (p : Char → Bool) (l : List Char) :
    (l.dropWhile p).dropWhile p = l.dropWhile p := by
  induction l with
  | nil => rfl
  | cons a as ih =>
    by_cases h : p a
    · simp [List.dropWhile_cons, h, ih]
    · simp [List.dropWhile_cons, h]

theorem dropWhile_exists_append (p : Char → Bool) (l : List Char) :
    ∃ t, l = t ++ l.dropWhile p := by
  induction l with
  | nil => exact ⟨[], rfl⟩
  | cons a as ih =>
    by_cases h : p a
    · obtain ⟨t, ht⟩ := ih
      exact ⟨a :: t, by simp [List.dropWhile_cons, h, ← ht]⟩
    · exact ⟨[], by simp [List.dropWhile_cons, h]⟩

theorem dropWhile_head_not (p : Char → Bool) (l : List Char) (a : Char)
    (as : List Char) (h : l.dropWhile p = a :: as) : p a = false := by
  induction l with
  | nil => simp at h
  | cons x xs ih =>
    by_cases hx : p x
    · exact ih (by simpa [List.dropWhile_cons, hx] using h)
    · simp only [List.dropWhile_cons, hx, if_neg] at h
      simp only [Bool.false_eq_true, ite_false] at h
      cases h
      simpa using hx

theorem trimLeftWs_idem (l : List Char) : trimLeftWs (trimLeftWs l) = trimLeftWs l :=
  dropWhile_self_idem jsWhitespace l

theorem trimRightWs_idem (l : List Char) :
    trimRightWs (trimRightWs l) = trimRightWs l := by
  unfold trimRightWs
  rw [List.reverse_reverse, dropWhile_self_idem]

theorem trimLeftWs_of_head_not (l : List Char)
    (h : ∀ a as, l = a :: as → jsWhitespace a = false) : trimLeftWs l = l := by
  cases l with
  | nil => rfl
  | cons a as =>
    unfold trimLeftWs
    simp [List.dropWhile_cons, h a as rfl]

theorem trimLeftWs_trimRightWs_of_fixed (l : List Char)
    (h : trimLeftWs l = l) : trimLeftWs (trimRightWs l) = trimRightWs l := by
  apply trimLeftWs_of_head_not
  intro a as hcons
  -- the first element of `trimRightWs l` is the first element of `l`
  cases l with
  | nil => simp [trimRightWs] at hcons
  | cons x xs =>
    have hx : jsWhitespace x = false := by
      by_contra hxw
      simp only [Bool.not_eq_false] at hxw
      have := h
      unfold trimLeftWs at this
      rw [List.dropWhile_cons, if_pos hxw] at this
      have hlen := congrArg List.length this
      have hle := (List.dropWhile_sublist (l := xs) (p := jsWhitespace)).length_le
      simp at hlen
      omega
    -- trimRightWs (x :: xs) is a prefix of x :: xs, so its head is x
    have hpre : ∃ t, (x :: xs).reverse = t ++ (x :: xs).reverse.dropWhile jsWhitespace :=
      dropWhile_exists_append jsWhitespace _
    obtain ⟨t, ht⟩ := hpre
    have hrev : trimRightWs (x :: xs) = ((x :: xs).reverse.dropWhile jsWhitespace).reverse := rfl
    rw [hrev] at hcons
    -- from hcons, the dropWhile result is nonempty and its reverse starts with a
    have hlast : ((x :: xs).reverse.dropWhile jsWhitespace).reverse.head? = some a := by
      rw [hcons]; rfl
    have hhead : (x :: xs).head? = some x := rfl
    -- the reverse of the dropped list, being a prefix of x :: xs, has head x
    have : ((x :: xs).reverse.dropWhile jsWhitespace).reverse.head? = some x ∨
        ((x :: xs).reverse.dropWhile jsWhitespace).reverse = [] := by
      have hx2 := congrArg List.reverse ht
      simp only [List.reverse_append, List.reverse_reverse] at hx2
      cases hd : ((x :: xs).reverse.dropWhile jsWhitespace).reverse with
      | nil => exact Or.inr rfl
      | cons b bs =>
        left
        rw [hd] at hx2
        have : x :: xs = b :: (bs ++ t.reverse) := by simpa using hx2
        cases this
        simp [hd]
    rcases this with hcase | hcase
    · rw [hcons] at hcase
      simp at hcase
      rw [← hcase] at hx
      exact hx
    · rw [hcons] at hcase
      simp at hcase

theorem jsTrim_idem (l : List Char) : jsTrim (jsTrim l) = jsTrim l := by
  unfold jsTrim
  rw [trimLeftWs_trimRightWs_of_fixed (trimLeftWs l) (trimLeftWs_idem l),
    trimRightWs_idem]

theorem jsTrim_mem (l : List Char) (c : Char) (h : c ∈ jsTrim l) : c ∈ l := by
  unfold jsTrim trimRightWs trimLeftWs at h
  have h1 : c ∈ (l.dropWhile jsWhitespace).reverse.dropWhile jsWhitespace := by
    simpa using h
  have h2 := (List.dropWhile_sublist (l := (l.dropWhile jsWhitespace).reverse)
    (p := jsWhitespace)).subset h1
  have h3 : c ∈ l.dropWhile jsWhitespace := by simpa using h2
  exact (List.dropWhile_sublist (l := l) (p := jsWhitespace)).subset h3

theorem sanitizeContent_idem (x : List Char) :
    sanitizeContent (sanitizeContent x) = sanitizeContent x := by
  unfold sanitizeContent
  have hall : ∀ c ∈ jsTrim (x.filter (fun c => !isBidiControl c)),
      (!isBidiControl c) = true := by
    intro c hc
    exact (List.mem_filter.mp (jsTrim_mem _ c hc)).2
  rw [List.filter_eq_self.mpr hall, jsTrim_idem]

theorem sanitizeContent_of_clean (x : List Char)
    (hb : ∀ c ∈ x, isBidiControl c = false)
    (hh : ∀ c, x.head? = some c → jsWhitespace c = false)
    (hl : ∀ c, x.getLast? = some c → jsWhitespace c = false) :
    sanitizeContent x = x := by
  unfold sanitizeContent
  have hfix : x.filter (fun c => !isBidiControl c) = x := by
    apply List.filter_eq_self.mpr
    intro a ha
    simp [hb a ha]
  rw [hfix]
  unfold jsTrim
  have hleft : trimLeftWs x = x := by
    cases x with
    | nil => rfl
    | cons a as =>
      unfold trimLeftWs
      simp [List.dropWhile_cons, hh a rfl]
  rw [hleft]
  unfold trimRightWs
  cases hx : x.reverse with
  | nil => simp at hx; simp [hx]
  | cons b bs =>
    have hb' : x.getLast? = some b := by
      rw [← List.head?_reverse, hx]; rfl
    have hbw : jsWhitespace b = false := hl b hb'
    have hstep : List.dropWhile jsWhitespace (b :: bs) = b :: bs := by
      simp [List.dropWhile_cons, hbw]
    rw [hstep, ← hx, List.reverse_reverse]

/-- JavaScript digit class `\d` (ASCII 0-9). -/
def jsDigit (c : Char) : Bool := c.isDigit

/-- Split a list into its maximal leading run of ASCII digits and the rest. -/
def spanDigits (l : List Char) : List Char × List Char :=
  match l with
  | [] => ([], [])
  | c :: rest =>
    if jsDigit c then
      let (d, r) := spanDigits rest
      (c :: d, r)
    else ([], c :: rest)

/-- Match a counted digit group `\d{lo,hi}` followed (in every use below) by a
non-digit: because a digit class never abuts another digit literal in these
patterns, greedy matching with backtracking succeeds exactly when the maximal
digit run has length between `lo` and `hi`. -/
def expectDigits (lo hi : Nat) (l : List Char) : Option (List Char × List Char) :=
  let (d, r) := spanDigits l
  if lo ≤ d.length ∧ d.length ≤ hi then some (d, r) else none

/-- Match one literal character. -/
def expectChar (c : Char) : List Char → Option (List Char)
  | [] => none
  | x :: r => if x = c then some r else none

/-- Match one `\s` character. -/
def expectWs : List Char → Option (List Char)
  | [] => none
  | x :: r => if jsWhitespace x then some r else none

namespace ANDROID_REGEX

/-- Embedding of `ANDROID_REGEX.timestampPrefix` from
src/modules/parser/strategies/android.ts:
the anchored pattern an Android head line starts with
(date `\d{1,2}/\d{1,2}/\d{2,4}`, `,\s`, time `\d{1,2}:\d{2}`, `\s-\s`).
Returns the two capture groups (date text, time text) and the remainder of
the line after the full match, mirroring how the caller uses
`match[1]`, `match[2]` and `line.substring(match[0].length)`. -/
def timestampPat (l : List Char) : Option (List Char × List Char × List Char) :=
  match expectDigits 1 2 l with
  | none => none
  | some (d1, r1) =>
  match expectChar '/' r1 with
  | none => none
  | some r2 =>
  match expectDigits 1 2 r2 with
  | none => none
  | some (d2, r3) =>
  match expectChar '/' r3 with
  | none => none
  | some r4 =>
  match expectDigits 2 4 r4 with
  | none => none
  | some (y, r5) =>
  match expectChar ',' r5 with
  | none => none
  | some r6 =>
  match expectWs r6 with
  | none => none
  | some r7 =>
  match expectDigits 1 2 r7 with
  | none => none
  | some (hh, r8) =>
  match expectChar ':' r8 with
  | none => none
  | some r9 =>
  match expectDigits 2 2 r9 with
  | none => none
  | some (mm, r10) =>
  match expectWs r10 with
  | none => none
  | some r11 =>
  match expectChar '-' r11 with
  | none => none
  | some r12 =>
  match expectWs r12 with
  | none => none
  | some r13 => some (d1 ++ '/' :: d2 ++ '/' :: y, hh ++ ':' :: mm, r13)

end ANDROID_REGEX

namespace IOS_REGEX

/-- Embedding of `IOS_REGEX.timestampPrefix` from
src/modules/parser/strategies/ios.ts:
the anchored pattern an iOS head line starts with
(`[`, date `\d{1,2}/\d{1,2}/\d{2,4}`, `,\s`, time `\d{1,2}:\d{2}:\d{2}`,
`]`, `\s`).  Returns the two capture groups and the remainder after the
full match. -/
def timestampPat (l : List Char) : Option (List Char × List Char × List Char) :=
  match expectChar '[' l with
  | none => none
  | some r0 =>
  match expectDigits 1 2 r0 with
  | none => none
  | some (d1, r1) =>
  match expectChar '/' r1 with
  | none => none
  | some r2 =>
  match expectDigits 1 2 r2 with
  | none => none
  | some (d2, r3) =>
  match expectChar '/' r3 with
  | none => none
  | some r4 =>
  match expectDigits 2 4 r4 with
  | none => none
  | some (y, r5) =>
  match expectChar ',' r5 with
  | none => none
  | some r6 =>
  match expectWs r6 with
  | none => none
  | some r7 =>
  match expectDigits 1 2 r7 with
  | none => none
  | some (hh, r8) =>
  match expectChar ':' r8 with
  | none => none
  | some r9 =>
  match expectDigits 2 2 r9 with
  | none => none
  | some (mm, r10) =>
  match expectChar ':' r10 with
  | none => none
  | some r11 =>
  match expectDigits 2 2 r11 with
  | none => none
  | some (ss, r12) =>
  match expectChar ']' r12 with
  | none => none
  | some r13 =>
  match expectWs r13 with
  | none => none
  | some r14 => some (d1 ++ '/' :: d2 ++ '/' :: y, hh ++ ':' :: mm ++ ':' :: ss, r14)

end IOS_REGEX

/-- Embedding of the shared `senderAndMessage` pattern `^(.*?):\s(.*)` (with
the `s` flag): the lazy group stops at the first `:` that is immediately
followed by a whitespace character; the remainder after that whitespace
character is the body.  `pre` accumulates the scanned sender prefix in
reverse. -/
def headWs : List Char → Bool
  | [] => false
  | c :: _ => jsWhitespace c

def senderSplitAux (pre : List Char) : List Char → Option (List Char × List Char)
  | [] => none
  | x :: rest =>
    if x == ':' && headWs rest then some (pre.reverse, rest.tail)
    else senderSplitAux (x :: pre) rest

/-- Match of `senderAndMessage` against a head line's remainder: `some
(sender, body)` when the pattern matches, `none` otherwise. -/
def senderAndMessage (l : List Char) : Option (List Char × List Char) :=
  senderSplitAux [] l

/-- Does `p` occur at the start of `l`? (JS `String.prototype.startsWith`.) -/
def listStartsWith : List Char → List Char → Bool
  | [], _ => true
  | _ :: _, [] => false
  | p :: ps, c :: cs => p == c && listStartsWith ps cs

/-- Does `sub` occur contiguously inside `l`? (JS `String.prototype.includes`.) -/
def containsSub (sub : List Char) : List Char → Bool
  | [] => sub.isEmpty
  | c :: rest => listStartsWith sub (c :: rest) || containsSub sub rest

/-- Helper of `splitOnChar`; `cur` holds the current piece in reverse. -/
def splitOnCharGo (sep : Char) (cur : List Char) : List Char → List (List Char)
  | [] => [cur.reverse]
  | c :: rest =>
    if c = sep then cur.reverse :: splitOnCharGo sep [] rest
    else splitOnCharGo sep (c :: cur) rest

/-- Embedding of JS `String.prototype.split` with a single-character
separator string. -/
def splitOnChar (sep : Char) (l : List Char) : List (List Char) :=
  splitOnCharGo sep [] l

/-- Helper of `splitLinesJs`; `cur` holds the current line in reverse. -/
def splitLinesGo (cur : List Char) : List Char → List (List Char)
  | [] => [cur.reverse]
  | '\r' :: '\n' :: rest => cur.reverse :: splitLinesGo [] rest
  | '\n' :: rest => cur.reverse :: splitLinesGo [] rest
  | c :: rest => splitLinesGo (c :: cur) rest

/-- Embedding of JS `rawText.split(/\r?\n/)` from parseWhatsAppChat: a line
break is `\n` optionally preceded by `\r`; a lone `\r` is not a break. -/
def splitLinesJs (raw : List Char) : List (List Char) :=
  splitLinesGo [] raw

/-- JS `String.prototype.replace` with a plain-string pattern: replaces only
the first occurrence (used for `fileName.replace('.txt', '')`). -/
def replaceOnce (pat repl : List Char) : List Char → List Char
  | [] => if pat.isEmpty then repl else []
  | c :: rest =>
    if listStartsWith pat (c :: rest) then repl ++ (c :: rest).drop pat.length
    else c :: replaceOnce pat repl rest

/-- Numeric value of a list of ASCII digits (most significant first). -/
def digitsVal : List Char → Nat → Nat
  | [], acc => acc
  | c :: rest, acc => digitsVal rest (acc * 10 + (c.toNat - '0'.toNat))

/-- Parse the maximal leading digit run as a natural number (the digit part
of JS `parseInt`). -/
def jsParseIntNat (l : List Char) : Option Nat :=
  let (d, _) := spanDigits l
  if d.isEmpty then none else some (digitsVal d 0)

/-- Embedding of JS `parseInt(str, 10)`: skip leading whitespace, optional
sign, then the maximal run of leading digits; `none` models `NaN`. -/
def jsParseInt (l : List Char) : Option Int :=
  let l1 := l.dropWhile jsWhitespace
  match l1 with
  | '-' :: rest => jsParseIntNat rest |>.map (fun n => -(n : Int))
  | '+' :: rest => jsParseIntNat rest |>.map (fun n => (n : Int))
  | _ => jsParseIntNat l1 |>.map (fun n => (n : Int))

/-- The four capture groups of the time pattern
`/(\d+):(\d+)(?::(\d+))?\s*([AaPp][Mm])?/i` from `parseDate`. -/
structure TimeGroups where
  g1 : List Char
  g2 : List Char
  g3 : Option (List Char)
  g4 : Option Char
  deriving DecidableEq

/-- Attempt the (unanchored) time pattern at the start of `l`.  Because each
digit class is followed by a disjoint literal, greedy matching with
backtracking reduces to maximal digit runs; the optional seconds group
participates only when a `:` plus at least one digit follows; `g4` records
the A/P letter of an optional AM/PM suffix after `\s*`. -/
def tryTimeAt (l : List Char) : Option TimeGroups :=
  let (g1, r1) := spanDigits l
  if g1.isEmpty then none else
  match r1 with
  | ':' :: r2 =>
    let (g2, r3) := spanDigits r2
    if g2.isEmpty then none else
    let (g3, r4) :=
      match r3 with
      | ':' :: r3' =>
        let (d, r) := spanDigits r3'
        if d.isEmpty then (none, r3) else (some d, r)
      | _ => (none, r3)
    let r5 := r4.dropWhile jsWhitespace
    let g4 :=
      match r5 with
      | a :: m :: _ =>
        if (a == 'A' || a == 'a' || a == 'P' || a == 'p') &&
            (m == 'M' || m == 'm') then some a else none
      | _ => none
    some ⟨g1, g2, g3, g4⟩
  | _ => none

/-- Unanchored search of the time pattern: try each start position from the
left, as `String.prototype.match` does. -/
def jsTimeMatch : List Char → Option TimeGroups
  | [] => none
  | c :: rest =>
    match tryTimeAt (c :: rest) with
    | some g => some g
    | none => jsTimeMatch rest

/-- The hours/minutes/seconds block of `parseDate`
(src/modules/parser/index.ts lines 164-176): extract the time groups, then
apply the AM/PM adjustment (PM with hour < 12 adds 12; AM with hour 12 sets
hour 0); all three default to 0 when the pattern does not match. -/
def resolveTime (timeStr : List Char) : Int × Int × Int :=
  match jsTimeMatch timeStr with
  | none => (0, 0, 0)
  | some g =>
    let hours : Int := (jsParseInt g.g1).getD 0
    let mins : Int := (jsParseInt g.g2).getD 0
    let secs : Int := match g.g3 with
      | some d => (jsParseInt d).getD 0
      | none => 0
    match g.g4 with
    | some a =>
      if (a = 'P' ∨ a = 'p') ∧ hours < 12 then (hours + 12, mins, secs)
      else if (a = 'A' ∨ a = 'a') ∧ hours = 12 then (0, mins, secs)
      else (hours, mins, secs)
    | none => (hours, mins, secs)

/-- Day count from 1970-01-01 for a proleptic-Gregorian date with `m ∈
[1,12]` (civil-from-days inverse, Howard Hinnant's algorithm). -/
def daysFromCivil (y m d : Int) : Int :=
  let y' := if m ≤ 2 then y - 1 else y
  let era := y'.ediv 400
  let yoe := y' - era * 400
  let m' := if m > 2 then m - 3 else m + 9
  let doy := (153 * m' + 2).ediv 5 + d - 1
  let doe := yoe * 365 + yoe.ediv 4 - yoe.ediv 100 + doy
  era * 146097 + doe - 719468

/-- Embedding of the ECMAScript `new Date(year, month, day, h, m, s)
.getTime()` used by `parseDate`, with the host timezone fixed to UTC:
a two-digit year maps to 1900+year, the 0-based month and the day/time
fields normalize arithmetically, and the result is `none` (JS `NaN`) when
the time value leaves the representable range of ±8.64e15 ms. -/
def jsDateGetTime (year month day hours mins secs : Int) : Option Int :=
  let yy := if 0 ≤ year ∧ year ≤ 99 then 1900 + year else year
  let m0 := month.emod 12
  let yAdj := yy + (month - m0).ediv 12
  let days := daysFromCivil yAdj (m0 + 1) 1 + (day - 1)
  let t := days * 86400000 + hours * 3600000 + mins * 60000 + secs * 1000
  if t ≤ 8640000000000000 ∧ -8640000000000000 ≤ t then some t else none

/-- The day/month disambiguation of `parseDate`
(src/modules/parser/index.ts lines 187-203), returning `(day, month0)` with
the month already 0-based: a first field above 12 is the day; else a second
field above 12 makes the first the month; else day-first. -/
def resolveDayMonth (p1 p2 : Int) : Int × Int :=
  if p1 > 12 then (p1, p2 - 1)
  else if p2 > 12 then (p2, p1 - 1)
  else (p1, p2 - 1)

/-- Replacement `dateStr.replace(/[.-]/g, '/')` at the top of `parseDate`. -/
def normalizeDate (dateStr : List Char) : List Char :=
  dateStr.map (fun c => if c = '.' ∨ c = '-' then '/' else c)

/-- Final step of `parseDate`: build the JS `Date` from the resolved
year/month/day and the extracted time fields, returning its time value, or
`now` when the date is invalid. -/
def dateFromFields (year month day : Int) (timeStr : List Char) (now : Int) : Int :=
  match jsDateGetTime year month day (resolveTime timeStr).1
      (resolveTime timeStr).2.1 (resolveTime timeStr).2.2 with
  | some t => t
  | none => now

/-- Embedding of `parseDate` (src/modules/parser/index.ts lines 162-210).
`now` stands for `Date.now()` at parse time.  `NaN` propagation from
`parseInt` into the `Date` constructor is modelled by the `none` branches,
all of which reach the same `Date.now()` fallback as an invalid date. -/
def parseDate (dateStr timeStr : List Char) (now : Int) : Int :=
  match splitOnChar '/' (normalizeDate dateStr) with
  | [a, b, c] =>
    match jsParseInt a, jsParseInt b, jsParseInt c with
    | some p1, some p2, some year0 =>
      dateFromFields (if year0 < 100 then year0 + 2000 else year0)
        (resolveDayMonth p1 p2).2 (resolveDayMonth p1 p2).1 timeStr now
    | _, _, _ => now
  | _ => now

/-- The twelve semantic categories of src/modules/parser/types.ts. -/
inductive MessageType where
  | text | image | video | audio | sticker | gif | document | contact
  | location | system | call_log | deleted
  deriving DecidableEq, Repr

/-- Source platforms of src/modules/parser/types.ts. -/
inductive Platform where
  | ios | android | unknown
  deriving DecidableEq, Repr

/-- ASCII lowering, modelling `String.prototype.toLowerCase` on the ASCII
range (every marker string the classifier compares against is ASCII). -/
def toLowerJs (l : List Char) : List Char := l.map Char.toLower

/-- The literal `'System'` sender marker. -/
def sysSender : List Char := "System".toList

/-- The inner extension dispatch of rule 3 of `detectMessageType`
(src/modules/parser/detectors.ts lines 34-58), applied to the lowercased
body once the `(file attached)` marker was found.  The redundant inner
voice-note conditional of the source (both branches yield `audio`) is kept. -/
def attachedFileType (lowerContent : List Char) : MessageType :=
  if containsSub ".jpg".toList lowerContent || containsSub ".jpeg".toList lowerContent ||
      containsSub ".png".toList lowerContent then .image
  else if containsSub ".mp4".toList lowerContent || containsSub ".mov".toList lowerContent then .video
  else if containsSub ".opus".toList lowerContent || containsSub ".mp3".toList lowerContent ||
      containsSub ".m4a".toList lowerContent || containsSub ".wav".toList lowerContent ||
      containsSub ".ogg".toList lowerContent then
    (if containsSub "ptt-".toList lowerContent || containsSub "audio omitted".toList lowerContent
      then .audio else .audio)
  else if containsSub ".webp".toList lowerContent then .sticker
  else if containsSub ".vcf".toList lowerContent then .contact
  else if containsSub ".pdf".toList lowerContent || containsSub ".doc".toList lowerContent ||
      containsSub ".xls".toList lowerContent || containsSub ".txt".toList lowerContent then .document
  else .document

/-- Embedding of `detectMessageType` (src/modules/parser/detectors.ts):
ordered rules system, media-omitted, attached-file (by extension), deleted,
call, location, default text; the first matching rule wins. -/
def detectMessageType (content sender : List Char) : MessageType :=
  if sender = sysSender then .system
  else
    let lowerContent := toLowerJs content
    if containsSub "<media omitted>".toList lowerContent then .image
    else if containsSub "(file attached)".toList lowerContent then
      attachedFileType lowerContent
    else if lowerContent = "this message was deleted".toList ∨
        lowerContent = "you deleted this message".toList then .deleted
    else if containsSub "missed voice call".toList lowerContent ||
        containsSub "missed video call".toList lowerContent then .call_log
    else if containsSub "maps.google.com".toList lowerContent ||
        containsSub "maps.apple.com".toList lowerContent ||
        listStartsWith "location: ".toList lowerContent ||
        containsSub "live location".toList lowerContent then .location
    else .text

/-- The `Message` record built by the parser (src/modules/parser/types.ts
plus the ad hoc `_rawSender` side-channel field attached in
`parseWhatsAppChat`). -/
structure Message where
  id : Nat
  chatId : Nat
  timestamp : Int
  content : List Char
  type : MessageType
  isMediaOmitted : Bool
  senderId : Nat
  rawText : List Char
  rawSender : List Char
  deriving DecidableEq, Repr

/-- The `Chat` record assembled at the end of `parseWhatsAppChat`. -/
structure Chat where
  id : Nat
  name : List Char
  sourcePlatform : Platform
  importDate : Int
  deriving DecidableEq, Repr

/-- Record `ParseResult` (src/modules/parser/index.ts lines 7-12); the JS
`Set<string>` of senders is modelled as an insertion-ordered duplicate-free
list. -/
structure ParseResult where
  chat : Chat
  messages : List Message
  senders : List (List Char)
  warnings : List (List Char)
  deriving DecidableEq, Repr

/-- JS `Set.prototype.add`: append if absent. -/
def setAdd (s : List (List Char)) (x : List Char) : List (List Char) :=
  if x ∈ s then s else s ++ [x]

/-- The warning pushed when no platform is recognized
(src/modules/parser/index.ts line 53). -/
def formatWarning : List Char :=
  "File format not recognized by line 50. Ensure this is a valid WhatsApp export.".toList

/-- Decimal rendering of a line number for warning strings. -/
def natChars (n : Nat) : List Char := Nat.toDigits 10 n

/-- The warning pushed for an orphaned continuation line
(src/modules/parser/index.ts line 138). -/
def orphanWarning (n : Nat) : List Char :=
  "Line ".toList ++ natChars n ++ " skipped: Orphaned line before first message.".toList

/-- The timestamp-prefix match for the locked platform
(src/modules/parser/index.ts lines 69-73); `unknown` is unreachable there. -/
def matcherFor : Platform → List Char → Option (List Char × List Char × List Char)
  | Platform.android, l => ANDROID_REGEX.timestampPat l
  | Platform.ios, l => IOS_REGEX.timestampPat l
  | Platform.unknown, _ => none

/-- The mutable loop state of `parseWhatsAppChat`: detected platform, the
accumulated messages (most recent first, so that the active `lastMessage`
is the head), the sender set, the warnings list, the current line number,
and whether the `break` on recognition failure has fired. -/
structure ParseState where
  platform : Platform
  msgsRev : List Message
  senders : List (List Char)
  warnings : List (List Char)
  lineNo : Nat
  halted : Bool
  deriving DecidableEq, Repr

/-- The initial state of the parse loop. -/
def initState : ParseState :=
  { platform := Platform.unknown, msgsRev := [], senders := [], warnings := [],
    lineNo := 0, halted := false }

/-- One iteration of the `for (const rawLine of lines)` loop of
`parseWhatsAppChat` (src/modules/parser/index.ts lines 34-142); `now`
stands for `Date.now()`.  `lastMessage` is null exactly when `msgsRev` is
empty, since it is assigned exactly when a message is pushed. -/
def processLine (now : Int) (st : ParseState) (rawLine : List Char) : ParseState :=
  if st.halted then st else
  let n := st.lineNo + 1
  if jsTrim rawLine = [] ∧ st.msgsRev = [] then { st with lineNo := n } else
  let line := sanitizeContent rawLine
  let pAfter :=
    if st.platform = Platform.unknown then
      if (ANDROID_REGEX.timestampPat line).isSome then Platform.android
      else if (IOS_REGEX.timestampPat line).isSome then Platform.ios
      else Platform.unknown
    else st.platform
  if pAfter = Platform.unknown then
    if n > 50 then
      { st with
        lineNo := n, warnings := st.warnings ++ [formatWarning], halted := true }
    else { st with lineNo := n }
  else
    match matcherFor pAfter line with
    | some (dateStr, timeStr, bodyPart) =>
      let (senderStr, messageBody) :=
        match senderAndMessage bodyPart with
        | some (s, b) => (s, b)
        | none => (sysSender, bodyPart)
      let senders' := if senderStr ≠ sysSender then setAdd st.senders senderStr else st.senders
      let type := detectMessageType messageBody senderStr
      let newMessage : Message :=
        { id := n, chatId := 0, timestamp := parseDate dateStr timeStr now,
          content := messageBody, type := type,
          isMediaOmitted := decide (type = MessageType.image) && containsSub "omitted".toList messageBody,
          senderId := 0, rawText := rawLine, rawSender := senderStr }
      { st with
        platform := pAfter, lineNo := n, senders := senders',
        msgsRev := newMessage :: st.msgsRev }
    | none =>
      match st.msgsRev with
      | last :: rest =>
        { st with
          platform := pAfter, lineNo := n,
          msgsRev :=
            { last with
              content := last.content ++ '\n' :: line,
              rawText := if last.rawText ≠ [] then last.rawText ++ '\n' :: rawLine
                else last.rawText } :: rest }
      | [] =>
        if jsTrim line ≠ [] then
          { st with
            platform := pAfter, lineNo := n,
            warnings := st.warnings ++ [orphanWarning n] }
        else { st with platform := pAfter, lineNo := n }

/-- Embedding of `parseWhatsAppChat` (src/modules/parser/index.ts lines
22-155); `now` stands for `Date.now()`. -/
def parseWhatsAppChat (rawText : List Char) (fileName : List Char) (now : Int) :
    ParseResult :=
  let st := (splitLinesJs rawText).foldl (processLine now) initState
  { chat :=
      { id := 0, name := replaceOnce ".txt".toList [] fileName,
        sourcePlatform := st.platform, importDate := now },
    messages := st.msgsRev.reverse,
    senders := st.senders,
    warnings := st.warnings }

/-- All characters of `l` are ASCII digits. -/
def allDigits (l : List Char) : Prop := ∀ c ∈ l, jsDigit c = true

instance (l : List Char) : Decidable (allDigits l) := by
  unfold allDigits
  infer_instance

/-- A date separator as §6 of the spec states it: `.`, `/` or `-`. -/
def SpecSep (c : Char) : Prop := c = '.' ∨ c = '/' ∨ c = '-'

/-- An optional case-insensitive AM/PM suffix as §6 of the spec states it:
empty, or a space followed by A/P and M in either case. -/
def SpecAmPm (ap : List Char) : Prop :=
  ap = [] ∨ ∃ a m, ap = [' ', a, m] ∧
    (a = 'a' ∨ a = 'A' ∨ a = 'p' ∨ a = 'P') ∧ (m = 'm' ∨ m = 'M')

instance (c : Char) : Decidable (SpecSep c) := by
  unfold SpecSep
  infer_instance

/-- Boolean check equivalent to `SpecAmPm`, for decidability. -/
def specAmPmCheck : List Char → Bool
  | [] => true
  | [s, a, m] =>
    s == ' ' && (a == 'a' || a == 'A' || a == 'p' || a == 'P') &&
      (m == 'm' || m == 'M')
  | _ => false

theorem specAmPm_iff_check (ap : List Char) :
    SpecAmPm ap ↔ specAmPmCheck ap = true := by
  constructor
  · rintro (h | ⟨a, m, heq, ha, hm⟩)
    · subst h; rfl
    · subst heq
      rcases ha with rfl | rfl | rfl | rfl <;> rcases hm with rfl | rfl <;> decide
  · intro h
    rcases ap with _ | ⟨s, _ | ⟨a, _ | ⟨m, _ | ⟨x, t⟩⟩⟩⟩
    · exact Or.inl rfl
    · simp [specAmPmCheck] at h
    · simp [specAmPmCheck] at h
    · simp only [specAmPmCheck, Bool.and_eq_true, beq_iff_eq, Bool.or_eq_true] at h
      refine Or.inr ⟨a, m, by rw [h.1.1], ?_, h.2⟩
      tauto
    · simp [specAmPmCheck] at h

instance (ap : List Char) : Decidable (SpecAmPm ap) :=
  decidable_of_iff _ (specAmPm_iff_check ap).symm

/-- The Dialect B ("dash-separated, no seconds") line grammar exactly as §6
of the spec states it: date (two fields, separator `.` or `/` or `-`), `, `, `H{1,2}:MM`,
an optional am/pm suffix, then ` - `
followed by the rest of the line.  Written from the spec's words, to be
compared with the source's `ANDROID_REGEX`. -/
def SpecDialectB (l : List Char) : Prop :=
  ∃ d1 s1 d2 s2 y hh mm ap rest,
    l = d1 ++ s1 :: (d2 ++ s2 :: (y ++ ',' :: ' ' ::
      (hh ++ ':' :: (mm ++ ap ++ ' ' :: '-' :: ' ' :: rest)))) ∧
    allDigits d1 ∧ 1 ≤ d1.length ∧ d1.length ≤ 2 ∧ SpecSep s1 ∧
    allDigits d2 ∧ 1 ≤ d2.length ∧ d2.length ≤ 2 ∧ SpecSep s2 ∧
    allDigits y ∧ 2 ≤ y.length ∧ y.length ≤ 4 ∧
    allDigits hh ∧ 1 ≤ hh.length ∧ hh.length ≤ 2 ∧
    allDigits mm ∧ mm.length = 2 ∧ SpecAmPm ap

/-- The Dialect A ("bracketed/seconds") line grammar exactly as §6 of the
spec states it: `[`, a date (two fields, separator `.` or `/` or `-`), `, `,
`H{1,2}:MM:SS`, an optional AM/PM suffix, then `] `
followed by the rest of the line.  Written from the spec's words, to be
compared with the source's `IOS_REGEX`. -/
def SpecDialectA (l : List Char) : Prop :=
  ∃ d1 s1 d2 s2 y hh mm ss ap rest,
    l = '[' :: (d1 ++ s1 :: (d2 ++ s2 :: (y ++ ',' :: ' ' ::
      (hh ++ ':' :: (mm ++ ':' :: (ss ++ ap ++ ']' :: ' ' :: rest)))))) ∧
    allDigits d1 ∧ 1 ≤ d1.length ∧ d1.length ≤ 2 ∧ SpecSep s1 ∧
    allDigits d2 ∧ 1 ≤ d2.length ∧ d2.length ≤ 2 ∧ SpecSep s2 ∧
    allDigits y ∧ 2 ≤ y.length ∧ y.length ≤ 4 ∧
    allDigits hh ∧ 1 ≤ hh.length ∧ hh.length ≤ 2 ∧
    allDigits mm ∧ mm.length = 2 ∧ allDigits ss ∧ ss.length = 2 ∧ SpecAmPm ap

/-- The Dialect B grammar restricted to `/` separators and no AM/PM
suffix (the sub-grammar the source's `ANDROID_REGEX` actually accepts). -/
def SpecDialectBSlash (l : List Char) : Prop :=
  ∃ d1 d2 y hh mm rest,
    l = d1 ++ '/' :: (d2 ++ '/' :: (y ++ ',' :: ' ' ::
      (hh ++ ':' :: (mm ++ ' ' :: '-' :: ' ' :: rest)))) ∧
    allDigits d1 ∧ 1 ≤ d1.length ∧ d1.length ≤ 2 ∧
    allDigits d2 ∧ 1 ≤ d2.length ∧ d2.length ≤ 2 ∧
    allDigits y ∧ 2 ≤ y.length ∧ y.length ≤ 4 ∧
    allDigits hh ∧ 1 ≤ hh.length ∧ hh.length ≤ 2 ∧
    allDigits mm ∧ mm.length = 2

/-- The Dialect A grammar restricted to `/` separators and no AM/PM
suffix (the sub-grammar the source's `IOS_REGEX` actually accepts). -/
def SpecDialectASlash (l : List Char) : Prop :=
  ∃ d1 d2 y hh mm ss rest,
    l = '[' :: (d1 ++ '/' :: (d2 ++ '/' :: (y ++ ',' :: ' ' ::
      (hh ++ ':' :: (mm ++ ':' :: (ss ++ ']' :: ' ' :: rest)))))) ∧
    allDigits d1 ∧ 1 ≤ d1.length ∧ d1.length ≤ 2 ∧
    allDigits d2 ∧ 1 ≤ d2.length ∧ d2.length ≤ 2 ∧
    allDigits y ∧ 2 ≤ y.length ∧ y.length ≤ 4 ∧
    allDigits hh ∧ 1 ≤ hh.length ∧ hh.length ≤ 2 ∧
    allDigits mm ∧ mm.length = 2 ∧ allDigits ss ∧ ss.length = 2

theorem spanDigits_append_nondigit (d : List Char) (c : Char) (r : List Char)
    (hd : allDigits d) (hc : jsDigit c = false) :
    spanDigits (d ++ c :: r) = (d, c :: r) := by
  induction d with
  | nil => simp [spanDigits, hc]
  | cons a as ih =>
    have ha : jsDigit a = true := hd a (by simp)
    have has : allDigits as := fun x hx => hd x (by simp [hx])
    simp [spanDigits, ha, ih has]

theorem expectDigits_append_nondigit (lo hi : Nat) (d : List Char) (c : Char)
    (r : List Char) (hd : allDigits d) (hc : jsDigit c = false)
    (hlo : lo ≤ d.length) (hhi : d.length ≤ hi) :
    expectDigits lo hi (d ++ c :: r) = some (d, c :: r) := by
  unfold expectDigits
  rw [spanDigits_append_nondigit d c r hd hc]
  simp [hlo, hhi]

theorem expectChar_cons_self (c : Char) (r : List Char) :
    expectChar c (c :: r) = some r := by
  simp [expectChar]

theorem expectWs_cons_of (c : Char) (r : List Char) (h : jsWhitespace c = true) :
    expectWs (c :: r) = some r := by
  simp [expectWs, h]

theorem android_matches_slash (l : List Char) (h : SpecDialectBSlash l) :
    (ANDROID_REGEX.timestampPat l).isSome = true := by
  obtain ⟨d1, d2, y, hh, mm, rest, heq, hd1, hd1lo, hd1hi, hd2, hd2lo, hd2hi,
    hy, hylo, hyhi, hhh, hhlo, hhhi, hmm, hmmlen⟩ := h
  subst heq
  unfold ANDROID_REGEX.timestampPat
  rw [expectDigits_append_nondigit 1 2 d1 '/'
    (d2 ++ '/' :: (y ++ ',' :: ' ' :: (hh ++ ':' :: (mm ++ ' ' :: '-' :: ' ' :: rest))))
    hd1 (by decide) hd1lo hd1hi]
  dsimp only
  rw [expectChar_cons_self '/'
    (d2 ++ '/' :: (y ++ ',' :: ' ' :: (hh ++ ':' :: (mm ++ ' ' :: '-' :: ' ' :: rest))))]
  dsimp only
  rw [expectDigits_append_nondigit 1 2 d2 '/'
    (y ++ ',' :: ' ' :: (hh ++ ':' :: (mm ++ ' ' :: '-' :: ' ' :: rest)))
    hd2 (by decide) hd2lo hd2hi]
  dsimp only
  rw [expectChar_cons_self '/'
    (y ++ ',' :: ' ' :: (hh ++ ':' :: (mm ++ ' ' :: '-' :: ' ' :: rest)))]
  dsimp only
  rw [expectDigits_append_nondigit 2 4 y ','
    (' ' :: (hh ++ ':' :: (mm ++ ' ' :: '-' :: ' ' :: rest)))
    hy (by decide) hylo hyhi]
  dsimp only
  rw [expectChar_cons_self ','
    (' ' :: (hh ++ ':' :: (mm ++ ' ' :: '-' :: ' ' :: rest)))]
  dsimp only
  rw [expectWs_cons_of ' ' (hh ++ ':' :: (mm ++ ' ' :: '-' :: ' ' :: rest)) (by decide)]
  dsimp only
  rw [expectDigits_append_nondigit 1 2 hh ':'
    (mm ++ ' ' :: '-' :: ' ' :: rest) hhh (by decide) hhlo hhhi]
  dsimp only
  rw [expectChar_cons_self ':' (mm ++ ' ' :: '-' :: ' ' :: rest)]
  dsimp only
  rw [expectDigits_append_nondigit 2 2 mm ' '
    ('-' :: ' ' :: rest) hmm (by decide) (by omega) (by omega)]
  dsimp only
  rw [expectWs_cons_of ' ' ('-' :: ' ' :: rest) (by decide)]
  dsimp only
  rw [expectChar_cons_self '-' (' ' :: rest)]
  dsimp only
  rw [expectWs_cons_of ' ' rest (by decide)]
  rfl

theorem ios_matches_slash (l : List Char) (h : SpecDialectASlash l) :
    (IOS_REGEX.timestampPat l).isSome = true := by
  obtain ⟨d1, d2, y, hh, mm, ss, rest, heq, hd1, hd1lo, hd1hi, hd2, hd2lo, hd2hi,
    hy, hylo, hyhi, hhh, hhlo, hhhi, hmm, hmmlen, hss, hsslen⟩ := h
  subst heq
  unfold IOS_REGEX.timestampPat
  rw [expectChar_cons_self '['
    (d1 ++ '/' :: (d2 ++ '/' :: (y ++ ',' :: ' ' ::
      (hh ++ ':' :: (mm ++ ':' :: (ss ++ ']' :: ' ' :: rest))))))]
  dsimp only
  rw [expectDigits_append_nondigit 1 2 d1 '/'
    (d2 ++ '/' :: (y ++ ',' :: ' ' :: (hh ++ ':' :: (mm ++ ':' :: (ss ++ ']' :: ' ' :: rest)))))
    hd1 (by decide) hd1lo hd1hi]
  dsimp only
  rw [expectChar_cons_self '/'
    (d2 ++ '/' :: (y ++ ',' :: ' ' :: (hh ++ ':' :: (mm ++ ':' :: (ss ++ ']' :: ' ' :: rest)))))]
  dsimp only
  rw [expectDigits_append_nondigit 1 2 d2 '/'
    (y ++ ',' :: ' ' :: (hh ++ ':' :: (mm ++ ':' :: (ss ++ ']' :: ' ' :: rest))))
    hd2 (by decide) hd2lo hd2hi]
  dsimp only
  rw [expectChar_cons_self '/'
    (y ++ ',' :: ' ' :: (hh ++ ':' :: (mm ++ ':' :: (ss ++ ']' :: ' ' :: rest))))]
  dsimp only
  rw [expectDigits_append_nondigit 2 4 y ','
    (' ' :: (hh ++ ':' :: (mm ++ ':' :: (ss ++ ']' :: ' ' :: rest))))
    hy (by decide) hylo hyhi]
  dsimp only
  rw [expectChar_cons_self ','
    (' ' :: (hh ++ ':' :: (mm ++ ':' :: (ss ++ ']' :: ' ' :: rest))))]
  dsimp only
  rw [expectWs_cons_of ' '
    (hh ++ ':' :: (mm ++ ':' :: (ss ++ ']' :: ' ' :: rest))) (by decide)]
  dsimp only
  rw [expectDigits_append_nondigit 1 2 hh ':'
    (mm ++ ':' :: (ss ++ ']' :: ' ' :: rest)) hhh (by decide) hhlo hhhi]
  dsimp only
  rw [expectChar_cons_self ':' (mm ++ ':' :: (ss ++ ']' :: ' ' :: rest))]
  dsimp only
  rw [expectDigits_append_nondigit 2 2 mm ':'
    (ss ++ ']' :: ' ' :: rest) hmm (by decide) (by omega) (by omega)]
  dsimp only
  rw [expectChar_cons_self ':' (ss ++ ']' :: ' ' :: rest)]
  dsimp only
  rw [expectDigits_append_nondigit 2 2 ss ']'
    (' ' :: rest) hss (by decide) (by omega) (by omega)]
  dsimp only
  rw [expectChar_cons_self ']' (' ' :: rest)]
  dsimp only
  rw [expectWs_cons_of ' ' rest (by decide)]
  rfl

/-- C7: sanitizeContent is idempotent — sanitizing twice equals sanitizing
once for every string — and a string containing none of the removed
bidirectional-control code points and no leading or trailing whitespace is
returned unchanged. -/
theorem c7_sanitize_idempotent_and_clean_noop :
    (∀ x : List Char, sanitizeContent (sanitizeContent x) = sanitizeContent x) ∧
    (∀ x : List Char, (∀ c ∈ x, isBidiControl c = false) →
      (∀ c, x.head? = some c → jsWhitespace c = false) →
      (∀ c, x.getLast? = some c → jsWhitespace c = false) →
      sanitizeContent x = x) :=
  ⟨sanitizeContent_idem, sanitizeContent_of_clean⟩

theorem c7_sanitize_witness :
    sanitizeContent (sanitizeContent "  ab‎c  ".toList) = sanitizeContent "  ab‎c  ".toList ∧
    sanitizeContent "héllo wörld".toList = "héllo wörld".toList :=
  ⟨c7_sanitize_idempotent_and_clean_noop.1 _,
   c7_sanitize_idempotent_and_clean_noop.2 _ (by decide)
    (by intro c hc; have h2 := Option.some.inj hc; cases h2; decide)
    (by intro c hc; have h2 := Option.some.inj hc; cases h2; decide)⟩

/-- C2: detectMessageType evaluates its rules in fixed priority order and
the first match wins: for every non-system sender and every body carrying
the attached-file marker but not the (higher-priority) media-omitted
marker, the result is exactly the rule-3 extension dispatch, regardless of
any maps URL or other later-rule marker in the same body. -/
theorem c2_detect_attached_file_priority (content sender : List Char)
    (hs : sender ≠ sysSender)
    (hm : containsSub "<media omitted>".toList (toLowerJs content) = false)
    (hf : containsSub "(file attached)".toList (toLowerJs content) = true) :
    detectMessageType content sender = attachedFileType (toLowerJs content) := by
  unfold detectMessageType
  rw [if_neg hs]
  simp only [hm, hf]
  rfl

theorem c2_detect_attached_file_priority_witness :
    detectMessageType "IMG-20210101-WA0001.jpg (file attached) maps.google.com".toList
      "Alice".toList = MessageType.image := by
  have h := c2_detect_attached_file_priority
    "IMG-20210101-WA0001.jpg (file attached) maps.google.com".toList
    "Alice".toList (by decide) rfl rfl
  rw [h]
  decide

/-- C6 counterexample: the line `20.06.2021, 14:30 - Bob: hi` conforms to
the spec's Dialect B grammar (with `.` as the date separator) but is not
matched by the source's `ANDROID_REGEX` timestamp pattern, which only
accepts `/`. -/
theorem c6_spec_grammar_not_matched :
    SpecDialectB ("20.06.2021, 14:30 - Bob: hi".toList) ∧
    ANDROID_REGEX.timestampPat ("20.06.2021, 14:30 - Bob: hi".toList) = none := by
  constructor
  · exact ⟨"20".toList, '.', "06".toList, '.', "2021".toList, "14".toList,
      "30".toList, [], "Bob: hi".toList, by decide⟩
  · rfl

/-- C6 (amended): the two timestamp patterns reproduce the §6 grammars
restricted to `/` date separators and no AM/PM suffix: every line whose
prefix conforms to that sub-grammar of Dialect A is matched by the iOS
pattern, and likewise for Dialect B and the Android pattern. -/
theorem c6_regex_match_slash_grammar :
    (∀ l, SpecDialectASlash l → (IOS_REGEX.timestampPat l).isSome = true) ∧
    (∀ l, SpecDialectBSlash l → (ANDROID_REGEX.timestampPat l).isSome = true) :=
  ⟨ios_matches_slash, android_matches_slash⟩

theorem c6_regex_match_slash_grammar_witness :
    (IOS_REGEX.timestampPat "[20/06/2021, 14:30:00] Alice: Hello".toList).isSome = true ∧
    (ANDROID_REGEX.timestampPat "20/06/2021, 14:30 - Alice: Hi".toList).isSome = true :=
  ⟨c6_regex_match_slash_grammar.1 _
    ⟨"20".toList, "06".toList, "2021".toList, "14".toList, "30".toList,
      "00".toList, "Alice: Hello".toList, by decide⟩,
   c6_regex_match_slash_grammar.2 _
    ⟨"20".toList, "06".toList, "2021".toList, "14".toList, "30".toList,
      "Alice: Hi".toList, by decide⟩⟩

/-- C1: for every date token parseDate splits into three fields parsing to
p1, p2, y — if p1 exceeds 12 it is the day and p2 the month, and if both
are at most 12 the day-first default likewise makes p1 the day and p2 the
month; a two-digit year y is interpreted as 2000+y (visible in the year
argument below). -/
theorem c1_parseDate_day_month_year_policy (ds ts : List Char)
    (now p1 p2 y : Int) (f1 f2 f3 : List Char)
    (hsplit : splitOnChar '/' (normalizeDate ds) = [f1, f2, f3])
    (h1 : jsParseInt f1 = some p1) (h2 : jsParseInt f2 = some p2)
    (h3 : jsParseInt f3 = some y)
    (h12 : 12 < p1 ∨ (p1 ≤ 12 ∧ p2 ≤ 12)) :
    parseDate ds ts now =
      dateFromFields (if y < 100 then y + 2000 else y) (p2 - 1) p1 ts now := by
  unfold parseDate
  rw [hsplit]
  dsimp only
  rw [h1, h2, h3]
  dsimp only
  have hdm : resolveDayMonth p1 p2 = (p1, p2 - 1) := by
    unfold resolveDayMonth
    rcases h12 with h | ⟨ha, hb⟩
    · rw [if_pos h]
    · rw [if_neg (by omega), if_neg (by omega)]
  rw [hdm]

theorem c1_parseDate_policy_witness :
    parseDate "25/03/2021".toList "10:00".toList 0 =
      dateFromFields 2021 2 25 "10:00".toList 0 ∧
    parseDate "25/03/2021".toList "10:00".toList 0 = 1616666400000 ∧
    parseDate "03/04/2021".toList "10:00".toList 0 =
      dateFromFields 2021 3 3 "10:00".toList 0 ∧
    parseDate "03/04/2021".toList "10:00".toList 0 = 1617444000000 ∧
    parseDate "25/03/21".toList "10:00".toList 0 =
      dateFromFields 2021 2 25 "10:00".toList 0 ∧
    parseDate "25/03/21".toList "10:00".toList 0 = 1616666400000 :=
  ⟨by
    have h := c1_parseDate_day_month_year_policy "25/03/2021".toList
      "10:00".toList 0 25 3 2021 "25".toList "03".toList "2021".toList
      rfl rfl rfl rfl (Or.inl (by decide))
    simpa using h,
   by decide,
   by
    have h := c1_parseDate_day_month_year_policy "03/04/2021".toList
      "10:00".toList 0 3 4 2021 "03".toList "04".toList "2021".toList
      rfl rfl rfl rfl (Or.inr (by decide))
    simpa using h,
   by decide,
   by
    have h := c1_parseDate_day_month_year_policy "25/03/21".toList
      "10:00".toList 0 25 3 21 "25".toList "03".toList "21".toList
      rfl rfl rfl rfl (Or.inl (by decide))
    simpa using h,
   by decide⟩

/-- C8: parseDate is a total function and whenever the composite date+time
fails to resolve — the token does not split into three fields, a field does
not parse as a number, or the constructed date is invalid — it returns the
current instant `now` instead of raising. -/
theorem c8_parseDate_total_fallback :
    (∀ ds ts : List Char, ∀ now : Int,
      (splitOnChar '/' (normalizeDate ds)).length ≠ 3 →
      parseDate ds ts now = now) ∧
    (∀ ds ts : List Char, ∀ now : Int, ∀ f1 f2 f3 : List Char,
      splitOnChar '/' (normalizeDate ds) = [f1, f2, f3] →
      (jsParseInt f1 = none ∨ jsParseInt f2 = none ∨ jsParseInt f3 = none) →
      parseDate ds ts now = now) ∧
    (∀ ds ts : List Char, ∀ now p1 p2 y : Int, ∀ f1 f2 f3 : List Char,
      splitOnChar '/' (normalizeDate ds) = [f1, f2, f3] →
      jsParseInt f1 = some p1 → jsParseInt f2 = some p2 →
      jsParseInt f3 = some y →
      jsDateGetTime (if y < 100 then y + 2000 else y) (resolveDayMonth p1 p2).2
        (resolveDayMonth p1 p2).1 (resolveTime ts).1 (resolveTime ts).2.1
        (resolveTime ts).2.2 = none →
      parseDate ds ts now = now) := by
  refine ⟨?_, ?_, ?_⟩
  · intro ds ts now hlen
    unfold parseDate
    rcases hl : splitOnChar '/' (normalizeDate ds) with _ | ⟨a, _ | ⟨b, _ | ⟨c, _ | ⟨d, tl⟩⟩⟩⟩ <;>
      simp_all
  · intro ds ts now f1 f2 f3 hsplit hnone
    unfold parseDate
    rw [hsplit]
    dsimp only
    rcases h1 : jsParseInt f1 with _ | p1 <;>
      rcases h2 : jsParseInt f2 with _ | p2 <;>
      rcases h3 : jsParseInt f3 with _ | p3 <;>
      simp_all
  · intro ds ts now p1 p2 y f1 f2 f3 hsplit h1 h2 h3 hbad
    unfold parseDate
    rw [hsplit]
    dsimp only
    rw [h1, h2, h3]
    dsimp only
    unfold dateFromFields
    rw [hbad]

theorem c8_parseDate_fallback_witness :
    parseDate "garbage".toList "10:00".toList 7 = 7 ∧
    parseDate "1//2021".toList "10:00".toList 7 = 7 ∧
    parseDate "1/1/999999999".toList "10:00".toList 7 = 7 :=
  ⟨c8_parseDate_total_fallback.1 "garbage".toList "10:00".toList 7 (by decide),
   c8_parseDate_total_fallback.2.1 "1//2021".toList "10:00".toList 7
    "1".toList [] "2021".toList rfl (Or.inr (Or.inl rfl)),
   c8_parseDate_total_fallback.2.2 "1/1/999999999".toList "10:00".toList 7
    1 1 999999999 "1".toList "1".toList "999999999".toList
    rfl rfl rfl rfl rfl⟩

/-- C3: with a platform locked and an active last message, every
non-matching (continuation) line is appended to that message's content as
its sanitized text after a single newline separator; in particular the head
line `01/01/2021, 10:00 - Bob: Line one` followed by `Line two` parses to
exactly one message whose content is `Line one\nLine two`. -/
theorem c3_continuation_appends_with_newline :
    (∀ (now : Int) (st : ParseState) (rawLine : List Char) (m : Message)
      (ms : List Message), st.halted = false →
      st.platform ≠ Platform.unknown → st.msgsRev = m :: ms →
      matcherFor st.platform (sanitizeContent rawLine) = none →
      processLine now st rawLine = { st with
        lineNo := st.lineNo + 1,
        msgsRev := { m with
          content := m.content ++ '\n' :: sanitizeContent rawLine,
          rawText := if m.rawText ≠ [] then m.rawText ++ '\n' :: rawLine
            else m.rawText } :: ms }) ∧
    (parseWhatsAppChat "01/01/2021, 10:00 - Bob: Line one\nLine two".toList
        "chat.txt".toList 0).messages.map Message.content =
      ["Line one\nLine two".toList] := by
  constructor
  · intro now st rawLine m ms hhalt hplat hmsgs hmatch
    unfold processLine
    dsimp only
    rw [if_neg (by simp [hhalt])]
    rw [if_neg (by rw [hmsgs]; rintro ⟨h1, h2⟩; cases h2)]
    rw [if_neg hplat]
    rw [if_neg hplat]
    rw [hmatch]
    dsimp only
    rw [hmsgs]
  · decide

theorem c3_continuation_witness :
    processLine 0
      ⟨Platform.android,
        [⟨1, 0, 5, "Line one".toList, MessageType.text, false, 0,
          "head raw".toList, "Bob".toList⟩],
        ["Bob".toList], [], 1, false⟩
      "Line two".toList =
    ⟨Platform.android,
      [⟨1, 0, 5, "Line one\nLine two".toList, MessageType.text, false, 0,
        "head raw\nLine two".toList, "Bob".toList⟩],
      ["Bob".toList], [], 2, false⟩ :=
  (c3_continuation_appends_with_newline.1 0
    ⟨Platform.android,
      [⟨1, 0, 5, "Line one".toList, MessageType.text, false, 0,
        "head raw".toList, "Bob".toList⟩],
      ["Bob".toList], [], 1, false⟩
    "Line two".toList
    ⟨1, 0, 5, "Line one".toList, MessageType.text, false, 0,
      "head raw".toList, "Bob".toList⟩
    [] rfl (by decide) rfl (by decide)).trans (by decide)

theorem splitLinesGo_noNL (cur : List Char) (l : List Char)
    (hcur : ∀ c ∈ cur, c ≠ '\n') :
    ∀ x ∈ splitLinesGo cur l, ∀ c ∈ x, c ≠ '\n' := by
  induction cur, l using splitLinesGo.induct with
  | case1 cur =>
    intro x hx c hc
    simp only [splitLinesGo, List.mem_singleton] at hx
    subst hx
    exact hcur c (by simpa using hc)
  | case2 cur rest ih =>
    intro x hx c hc
    simp only [splitLinesGo, List.mem_cons] at hx
    rcases hx with hx | hx
    · subst hx; exact hcur c (by simpa using hc)
    · exact ih (by simp) x hx c hc
  | case3 cur rest ih =>
    intro x hx c hc
    simp only [splitLinesGo, List.mem_cons] at hx
    rcases hx with hx | hx
    · subst hx; exact hcur c (by simpa using hc)
    · exact ih (by simp) x hx c hc
  | case4 cur ch rest h1 h2 ih =>
    intro x hx c hc
    simp only [splitLinesGo] at hx
    refine ih ?_ x hx c hc
    intro d hd
    rcases List.mem_cons.mp hd with h | h
    · subst h; exact fun he => h2 he
    · exact hcur d h

/-- Every line produced by the line splitter is free of `\n`. -/
theorem splitLinesJs_noNL (raw : List Char) :
    ∀ x ∈ splitLinesJs raw, ∀ c ∈ x, c ≠ '\n' :=
  splitLinesGo_noNL [] raw (by simp)

theorem sanitizeContent_mem (l : List Char) (c : Char)
    (h : c ∈ sanitizeContent l) : c ∈ l := by
  unfold sanitizeContent at h
  exact (List.mem_filter.mp (jsTrim_mem _ c h)).1

theorem suffix_chain {l m r : List Char} (h1 : ∃ t, l = t ++ m)
    (h2 : ∃ u, m = u ++ r) : ∃ v, l = v ++ r := by
  obtain ⟨t, ht⟩ := h1
  obtain ⟨u, hu⟩ := h2
  exact ⟨t ++ u, by rw [ht, hu, List.append_assoc]⟩

theorem spanDigits_snd_suffix (l : List Char) :
    ∃ t, l = t ++ (spanDigits l).2 := by
  induction l with
  | nil => exact ⟨[], rfl⟩
  | cons a as ih =>
    by_cases h : jsDigit a
    · obtain ⟨t, ht⟩ := ih
      refine ⟨a :: t, ?_⟩
      simp only [spanDigits, h, if_true]
      rw [List.cons_append, ← ht]
    · exact ⟨[], by simp [spanDigits, h]⟩

theorem expectDigits_suffix (lo hi : Nat) (l d r : List Char)
    (h : expectDigits lo hi l = some (d, r)) : ∃ t, l = t ++ r := by
  unfold expectDigits at h
  rcases hsp : spanDigits l with ⟨d0, r0⟩
  rw [hsp] at h
  dsimp only at h
  by_cases hb : lo ≤ d0.length ∧ d0.length ≤ hi
  · rw [if_pos hb] at h
    obtain ⟨h1, h2⟩ := Prod.mk.injEq .. ▸ Option.some.inj h
    subst h2
    have := spanDigits_snd_suffix l
    rw [hsp] at this
    exact this
  · rw [if_neg hb] at h
    cases h

theorem expectChar_suffix (c : Char) (l r : List Char)
    (h : expectChar c l = some r) : ∃ t, l = t ++ r := by
  cases l with
  | nil => cases h
  | cons x xs =>
    unfold expectChar at h
    dsimp only at h
    by_cases hx : x = c
    · rw [if_pos hx] at h
      exact ⟨[x], by rw [Option.some.inj h]; rfl⟩
    · rw [if_neg hx] at h
      cases h

theorem expectWs_suffix (l r : List Char)
    (h : expectWs l = some r) : ∃ t, l = t ++ r := by
  cases l with
  | nil => cases h
  | cons x xs =>
    unfold expectWs at h
    dsimp only at h
    by_cases hx : jsWhitespace x
    · rw [if_pos hx] at h
      exact ⟨[x], by rw [Option.some.inj h]; rfl⟩
    · simp [hx] at h

theorem android_rest_suffix (l d t r : List Char)
    (h : ANDROID_REGEX.timestampPat l = some (d, t, r)) : ∃ pre, l = pre ++ r := by
  unfold ANDROID_REGEX.timestampPat at h
  rcases h1 : expectDigits 1 2 l with _ | p1
  · rw [h1] at h; cases h
  obtain ⟨d1, r1⟩ := p1
  rw [h1] at h; dsimp only at h
  rcases h2 : expectChar '/' r1 with _ | r2
  · rw [h2] at h; cases h
  rw [h2] at h; dsimp only at h
  rcases h3 : expectDigits 1 2 r2 with _ | p2
  · rw [h3] at h; cases h
  obtain ⟨d2, r3⟩ := p2
  rw [h3] at h; dsimp only at h
  rcases h4 : expectChar '/' r3 with _ | r4
  · rw [h4] at h; cases h
  rw [h4] at h; dsimp only at h
  rcases h5 : expectDigits 2 4 r4 with _ | p3
  · rw [h5] at h; cases h
  obtain ⟨y, r5⟩ := p3
  rw [h5] at h; dsimp only at h
  rcases h6 : expectChar ',' r5 with _ | r6
  · rw [h6] at h; cases h
  rw [h6] at h; dsimp only at h
  rcases h7 : expectWs r6 with _ | r7
  · rw [h7] at h; cases h
  rw [h7] at h; dsimp only at h
  rcases h8 : expectDigits 1 2 r7 with _ | p4
  · rw [h8] at h; cases h
  obtain ⟨hh, r8⟩ := p4
  rw [h8] at h; dsimp only at h
  rcases h9 : expectChar ':' r8 with _ | r9
  · rw [h9] at h; cases h
  rw [h9] at h; dsimp only at h
  rcases h10 : expectDigits 2 2 r9 with _ | p5
  · rw [h10] at h; cases h
  obtain ⟨mm, r10⟩ := p5
  rw [h10] at h; dsimp only at h
  rcases h11 : expectWs r10 with _ | r11
  · rw [h11] at h; cases h
  rw [h11] at h; dsimp only at h
  rcases h12 : expectChar '-' r11 with _ | r12
  · rw [h12] at h; cases h
  rw [h12] at h; dsimp only at h
  rcases h13 : expectWs r12 with _ | r13
  · rw [h13] at h; cases h
  rw [h13] at h; dsimp only at h
  have hr : r13 = r := congrArg (fun q => q.2.2) (Option.some.inj h)
  subst hr
  exact suffix_chain (expectDigits_suffix 1 2 l d1 r1 h1)
    (suffix_chain (expectChar_suffix '/' r1 r2 h2)
    (suffix_chain (expectDigits_suffix 1 2 r2 d2 r3 h3)
    (suffix_chain (expectChar_suffix '/' r3 r4 h4)
    (suffix_chain (expectDigits_suffix 2 4 r4 y r5 h5)
    (suffix_chain (expectChar_suffix ',' r5 r6 h6)
    (suffix_chain (expectWs_suffix r6 r7 h7)
    (suffix_chain (expectDigits_suffix 1 2 r7 hh r8 h8)
    (suffix_chain (expectChar_suffix ':' r8 r9 h9)
    (suffix_chain (expectDigits_suffix 2 2 r9 mm r10 h10)
    (suffix_chain (expectWs_suffix r10 r11 h11)
    (suffix_chain (expectChar_suffix '-' r11 r12 h12)
    (expectWs_suffix r12 r13 h13))))))))))))

theorem ios_rest_suffix (l d t r : List Char)
    (h : IOS_REGEX.timestampPat l = some (d, t, r)) : ∃ pre, l = pre ++ r := by
  unfold IOS_REGEX.timestampPat at h
  rcases h0 : expectChar '[' l with _ | r0
  · rw [h0] at h; cases h
  rw [h0] at h; dsimp only at h
  rcases h1 : expectDigits 1 2 r0 with _ | p1
  · rw [h1] at h; cases h
  obtain ⟨d1, r1⟩ := p1
  rw [h1] at h; dsimp only at h
  rcases h2 : expectChar '/' r1 with _ | r2
  · rw [h2] at h; cases h
  rw [h2] at h; dsimp only at h
  rcases h3 : expectDigits 1 2 r2 with _ | p2
  · rw [h3] at h; cases h
  obtain ⟨d2, r3⟩ := p2
  rw [h3] at h; dsimp only at h
  rcases h4 : expectChar '/' r3 with _ | r4
  · rw [h4] at h; cases h
  rw [h4] at h; dsimp only at h
  rcases h5 : expectDigits 2 4 r4 with _ | p3
  · rw [h5] at h; cases h
  obtain ⟨y, r5⟩ := p3
  rw [h5] at h; dsimp only at h
  rcases h6 : expectChar ',' r5 with _ | r6
  · rw [h6] at h; cases h
  rw [h6] at h; dsimp only at h
  rcases h7 : expectWs r6 with _ | r7
  · rw [h7] at h; cases h
  rw [h7] at h; dsimp only at h
  rcases h8 : expectDigits 1 2 r7 with _ | p4
  · rw [h8] at h; cases h
  obtain ⟨hh, r8⟩ := p4
  rw [h8] at h; dsimp only at h
  rcases h9 : expectChar ':' r8 with _ | r9
  · rw [h9] at h; cases h
  rw [h9] at h; dsimp only at h
  rcases h10 : expectDigits 2 2 r9 with _ | p5
  · rw [h10] at h; cases h
  obtain ⟨mm, r10⟩ := p5
  rw [h10] at h; dsimp only at h
  rcases h11 : expectChar ':' r10 with _ | r11
  · rw [h11] at h; cases h
  rw [h11] at h; dsimp only at h
  rcases h12 : expectDigits 2 2 r11 with _ | p6
  · rw [h12] at h; cases h
  obtain ⟨ss, r12⟩ := p6
  rw [h12] at h; dsimp only at h
  rcases h13 : expectChar ']' r12 with _ | r13
  · rw [h13] at h; cases h
  rw [h13] at h; dsimp only at h
  rcases h14 : expectWs r13 with _ | r14
  · rw [h14] at h; cases h
  rw [h14] at h; dsimp only at h
  have hr : r14 = r := congrArg (fun q => q.2.2) (Option.some.inj h)
  subst hr
  exact suffix_chain (expectChar_suffix '[' l r0 h0)
    (suffix_chain (expectDigits_suffix 1 2 r0 d1 r1 h1)
    (suffix_chain (expectChar_suffix '/' r1 r2 h2)
    (suffix_chain (expectDigits_suffix 1 2 r2 d2 r3 h3)
    (suffix_chain (expectChar_suffix '/' r3 r4 h4)
    (suffix_chain (expectDigits_suffix 2 4 r4 y r5 h5)
    (suffix_chain (expectChar_suffix ',' r5 r6 h6)
    (suffix_chain (expectWs_suffix r6 r7 h7)
    (suffix_chain (expectDigits_suffix 1 2 r7 hh r8 h8)
    (suffix_chain (expectChar_suffix ':' r8 r9 h9)
    (suffix_chain (expectDigits_suffix 2 2 r9 mm r10 h10)
    (suffix_chain (expectChar_suffix ':' r10 r11 h11)
    (suffix_chain (expectDigits_suffix 2 2 r11 ss r12 h12)
    (suffix_chain (expectChar_suffix ']' r12 r13 h13)
    (expectWs_suffix r13 r14 h14))))))))))))))

theorem matcherFor_rest_suffix (p : Platform) (l d t r : List Char)
    (h : matcherFor p l = some (d, t, r)) : ∃ pre, l = pre ++ r := by
  cases p with
  | android => exact android_rest_suffix l d t r h
  | ios => exact ios_rest_suffix l d t r h
  | unknown => cases h

theorem senderSplitAux_suffix (l : List Char) :
    ∀ (pre s b : List Char), senderSplitAux pre l = some (s, b) →
      ∃ t, l = t ++ b := by
  induction l with
  | nil => intro pre s b h; cases h
  | cons x rest ih =>
    intro pre s b h
    unfold senderSplitAux at h
    by_cases hc : (x == ':' && headWs rest) = true
    · rw [if_pos hc] at h
      have hb : rest.tail = b := congrArg (fun q => q.2) (Option.some.inj h)
      cases rest with
      | nil => simp [headWs] at hc
      | cons y ys =>
        refine ⟨[x, y], ?_⟩
        simp only [List.tail_cons] at hb
        rw [← hb]
        rfl
    · rw [if_neg hc] at h
      obtain ⟨u, hu⟩ := ih (x :: pre) s b h
      exact ⟨x :: u, by rw [List.cons_append, ← hu]⟩

/-- First physical line of a message's accumulated content, i.e. the head
line's body (continuation lines are appended after `\n`). -/
def headLine (content : List Char) : List Char :=
  content.takeWhile (fun c => c != '\n')

theorem takeWhile_append_stop (q : Char → Bool) (xs : List Char) (y : Char)
    (ys : List Char) (hy : q y = false) :
    (xs ++ y :: ys).takeWhile q = xs.takeWhile q := by
  induction xs with
  | nil => simp [List.takeWhile, hy]
  | cons a as ih =>
    by_cases ha : q a
    · simp [List.takeWhile_cons, ha, ih]
    · simp [List.takeWhile_cons, ha]

theorem takeWhile_all (q : Char → Bool) (l : List Char)
    (h : ∀ c ∈ l, q c = true) : l.takeWhile q = l := by
  induction l with
  | nil => rfl
  | cons a as ih =>
    have ha : q a = true := h a (by simp)
    simp [List.takeWhile_cons, ha, ih (fun c hc => h c (by simp [hc]))]

/-- The invariant claimed for every parsed message: the media-omitted flag
is set exactly when the detected type is `image` and the head-line body
contains the (case-sensitive) substring `omitted`. -/
def flagInv (m : Message) : Prop :=
  m.isMediaOmitted = (decide (m.type = MessageType.image) &&
    containsSub "omitted".toList (headLine m.content))

theorem headLine_of_noNL (l : List Char) (h : ∀ c ∈ l, c ≠ '\n') :
    headLine l = l :=
  takeWhile_all _ l (fun c hc => by simpa using h c hc)

theorem headLine_append_newline (c l : List Char) :
    headLine (c ++ '\n' :: l) = headLine c :=
  takeWhile_append_stop _ c '\n' l (by decide)

theorem processLine_flagInv (now : Int) (st : ParseState) (rawLine : List Char)
    (hn : ∀ c ∈ rawLine, c ≠ '\n')
    (hinv : ∀ m ∈ st.msgsRev, flagInv m) :
    ∀ m ∈ (processLine now st rawLine).msgsRev, flagInv m := by
  unfold processLine
  dsimp only
  by_cases hhalt : st.halted = true
  · rw [if_pos hhalt]; exact hinv
  · rw [if_neg hhalt]
    by_cases hblank : jsTrim rawLine = [] ∧ st.msgsRev = []
    · rw [if_pos hblank]; exact hinv
    · rw [if_neg hblank]
      by_cases hp : (if st.platform = Platform.unknown then
          if (ANDROID_REGEX.timestampPat (sanitizeContent rawLine)).isSome = true
            then Platform.android
          else if (IOS_REGEX.timestampPat (sanitizeContent rawLine)).isSome = true
            then Platform.ios
          else Platform.unknown
        else st.platform) = Platform.unknown
      · rw [if_pos hp]
        by_cases h50 : st.lineNo + 1 > 50
        · rw [if_pos h50]; exact hinv
        · rw [if_neg h50]; exact hinv
      · rw [if_neg hp]
        rcases hm : matcherFor _ (sanitizeContent rawLine) with _ | ⟨dstr, tstr, body⟩
        · dsimp only
          rcases hrev : st.msgsRev with _ | ⟨last, restm⟩
          · by_cases hnb : jsTrim (sanitizeContent rawLine) ≠ []
            · rw [if_pos hnb]; intro m hm'; simp at hm'
            · rw [if_neg hnb]; intro m hm'; simp at hm'
          · intro m hm'
            dsimp only at hm'
            rcases List.mem_cons.mp hm' with hme | hme
            · subst hme
              have hl : flagInv last := hinv last (by rw [hrev]; simp)
              unfold flagInv at hl ⊢
              dsimp only
              rw [headLine_append_newline]
              exact hl
            · exact hinv m (by rw [hrev]; simp [hme])
        · dsimp only
          have hbody : ∀ c ∈ body, c ≠ '\n' := by
            intro c hc
            obtain ⟨pre, hpre⟩ := matcherFor_rest_suffix _ _ dstr tstr body hm
            have hc2 : c ∈ sanitizeContent rawLine := by
              rw [hpre]; exact List.mem_append_right pre hc
            exact hn c (sanitizeContent_mem rawLine c hc2)
          rcases hs : senderAndMessage body with _ | ⟨sname, sbody⟩
          · dsimp only
            intro m hm'
            rcases List.mem_cons.mp hm' with hme | hme
            · subst hme
              unfold flagInv
              dsimp only
              rw [headLine_of_noNL body hbody]
            · exact hinv m hme
          · dsimp only
            intro m hm'
            rcases List.mem_cons.mp hm' with hme | hme
            · subst hme
              unfold flagInv
              dsimp only
              have hsb : ∀ c ∈ sbody, c ≠ '\n' := by
                intro c hc
                obtain ⟨u, hu⟩ := senderSplitAux_suffix body [] sname sbody hs
                exact hbody c (by rw [hu]; exact List.mem_append_right u hc)
              rw [headLine_of_noNL sbody hsb]
            · exact hinv m hme

theorem foldl_flagInv (now : Int) (ls : List (List Char)) :
    ∀ st : ParseState, (∀ l ∈ ls, ∀ c ∈ l, c ≠ '\n') →
      (∀ m ∈ st.msgsRev, flagInv m) →
      ∀ m ∈ (ls.foldl (processLine now) st).msgsRev, flagInv m := by
  induction ls with
  | nil => intro st _ hinv; exact hinv
  | cons l ls ih =>
    intro st hls hinv
    simp only [List.foldl_cons]
    exact ih (processLine now st l)
      (fun x hx => hls x (by simp [hx]))
      (processLine_flagInv now st l (hls l (by simp)) hinv)

/-- C10: for every message produced by parseWhatsAppChat, the
isMediaOmitted flag equals (type is image AND the sanitized head-line body
contains the lowercase substring `omitted`); in particular the flag is
false for every message whose type is not image. -/
theorem c10_media_omitted_flag (rawText fileName : List Char) (now : Int) :
    ∀ m ∈ (parseWhatsAppChat rawText fileName now).messages,
      m.isMediaOmitted = (decide (m.type = MessageType.image) &&
        containsSub "omitted".toList (headLine m.content)) ∧
      (m.type ≠ MessageType.image → m.isMediaOmitted = false) := by
  intro m hm
  have hinv : flagInv m := by
    unfold parseWhatsAppChat at hm
    dsimp only at hm
    rw [List.mem_reverse] at hm
    exact foldl_flagInv now (splitLinesJs rawText) initState
      (splitLinesJs_noNL rawText) (by intro x hx; simp [initState] at hx) m hm
  unfold flagInv at hinv
  refine ⟨hinv, ?_⟩
  intro hne
  rw [hinv]
  simp [hne]

/-- Concrete message produced by parsing one Android media-omitted line;
used to instantiate `c10_media_omitted_flag`. -/
def c10ExampleMsg : Message :=
  ⟨1, 0, 1624199400000, "<Media omitted>".toList, MessageType.image, true, 0,
    "20/06/2021, 14:30 - Alice: <Media omitted>".toList, "Alice".toList⟩

theorem c10_media_omitted_flag_witness :
    c10ExampleMsg.isMediaOmitted =
      (decide (c10ExampleMsg.type = MessageType.image) &&
        containsSub "omitted".toList (headLine c10ExampleMsg.content)) ∧
    c10ExampleMsg.isMediaOmitted = true :=
  ⟨(c10_media_omitted_flag
      "20/06/2021, 14:30 - Alice: <Media omitted>".toList "c.txt".toList 0
      c10ExampleMsg (by decide)).1,
   by decide⟩

/-- Invariant showing the orphan-warning branch is unreachable: once the
platform is known at least one message exists, and every warning ever
pushed is the format warning. -/
def onlyFormatWarnings (st : ParseState) : Prop :=
  (st.platform ≠ Platform.unknown → st.msgsRev ≠ []) ∧
  ∀ w ∈ st.warnings, w = formatWarning

theorem processLine_onlyFormatWarnings (now : Int) (st : ParseState)
    (rawLine : List Char) (h : onlyFormatWarnings st) :
    onlyFormatWarnings (processLine now st rawLine) := by
  obtain ⟨hpm, hw⟩ := h
  unfold processLine
  dsimp only
  by_cases hhalt : st.halted = true
  · rw [if_pos hhalt]; exact ⟨hpm, hw⟩
  · rw [if_neg hhalt]
    by_cases hblank : jsTrim rawLine = [] ∧ st.msgsRev = []
    · rw [if_pos hblank]; exact ⟨hpm, hw⟩
    · rw [if_neg hblank]
      by_cases hp : (if st.platform = Platform.unknown then
          if (ANDROID_REGEX.timestampPat (sanitizeContent rawLine)).isSome = true
            then Platform.android
          else if (IOS_REGEX.timestampPat (sanitizeContent rawLine)).isSome = true
            then Platform.ios
          else Platform.unknown
        else st.platform) = Platform.unknown
      · rw [if_pos hp]
        by_cases h50 : st.lineNo + 1 > 50
        · rw [if_pos h50]
          refine ⟨fun hplat => hpm hplat, ?_⟩
          intro w hw'
          rcases List.mem_append.mp hw' with hcase | hcase
          · exact hw w hcase
          · simpa using hcase
        · rw [if_neg h50]; exact ⟨hpm, hw⟩
      · rw [if_neg hp]
        rcases hm : matcherFor _ (sanitizeContent rawLine) with _ | ⟨dstr, tstr, body⟩
        · dsimp only
          rcases hrev : st.msgsRev with _ | ⟨last, restm⟩
          · exfalso
            by_cases hsp : st.platform = Platform.unknown
            · rw [if_pos hsp] at hp hm
              by_cases ha : (ANDROID_REGEX.timestampPat (sanitizeContent rawLine)).isSome = true
              · rw [if_pos ha] at hm
                simp only [matcherFor] at hm
                rw [hm] at ha
                simp at ha
              · rw [if_neg ha] at hp hm
                by_cases hi : (IOS_REGEX.timestampPat (sanitizeContent rawLine)).isSome = true
                · rw [if_pos hi] at hm
                  simp only [matcherFor] at hm
                  rw [hm] at hi
                  simp at hi
                · rw [if_neg hi] at hp
                  exact hp rfl
            · exact (hpm hsp) hrev
          · refine ⟨fun _ => ?_, hw⟩
            simp
        · dsimp only
          rcases hs : senderAndMessage body with _ | ⟨sname, sbody⟩
          · exact ⟨fun _ => by simp, hw⟩
          · exact ⟨fun _ => by simp, hw⟩

theorem foldl_onlyFormatWarnings (now : Int) (ls : List (List Char)) :
    ∀ st : ParseState, onlyFormatWarnings st →
      onlyFormatWarnings (ls.foldl (processLine now) st) := by
  induction ls with
  | nil => intro st h; exact h
  | cons l ls ih =>
    intro st h
    simp only [List.foldl_cons]
    exact ih _ (processLine_onlyFormatWarnings now st l h)

/-- C4 (code behavior): a non-blank continuation-shaped line before any
recognized message head is skipped silently — the parse of the failing
input yields no warning at all (where the claim requires exactly one) —
and, in general, the orphan warning can never be emitted, since every
warning the parser ever produces is the format warning: the orphan branch
requires a locked platform with no accumulated message, a state the loop
cannot reach. -/
theorem c4_orphan_line_silently_skipped :
    ((parseWhatsAppChat "orphan line\n01/01/2021, 10:00 - Bob: Hi".toList
        "c.txt".toList 0).warnings = [] ∧
      (parseWhatsAppChat "orphan line\n01/01/2021, 10:00 - Bob: Hi".toList
        "c.txt".toList 0).messages.length = 1) ∧
    (∀ rawText fileName : List Char, ∀ now : Int,
      ∀ w ∈ (parseWhatsAppChat rawText fileName now).warnings,
        w = formatWarning) := by
  constructor
  · exact ⟨by decide, by decide⟩
  · intro rawText fileName now w hwmem
    have h := foldl_onlyFormatWarnings now (splitLinesJs rawText) initState
      ⟨by intro h; simp [initState] at h, by intro x hx; simp [initState] at hx⟩
    exact h.2 w hwmem

/-- A line neither timestamp pattern matches (after sanitizing), i.e. one
that can never become a message head. -/
def noMatchLine (l : List Char) : Prop :=
  ANDROID_REGEX.timestampPat (sanitizeContent l) = none ∧
  IOS_REGEX.timestampPat (sanitizeContent l) = none

instance (l : List Char) : Decidable (noMatchLine l) := by
  unfold noMatchLine
  infer_instance

theorem allWs_jsTrim_nil (l : List Char)
    (h : ∀ c ∈ l, jsWhitespace c = true) : jsTrim l = [] := by
  have h1 : trimLeftWs l = [] := by
    unfold trimLeftWs
    induction l with
    | nil => rfl
    | cons a as ih =>
      rw [List.dropWhile_cons, if_pos (h a (by simp))]
      exact ih (fun c hc => h c (by simp [hc]))
  unfold jsTrim
  rw [h1]
  rfl

theorem mem_or_mem_dropWhile (p : Char → Bool) (l : List Char) (c : Char)
    (hc : c ∈ l) : p c = true ∨ c ∈ l.dropWhile p := by
  induction l with
  | nil => cases hc
  | cons a as ih =>
    by_cases ha : p a
    · rcases List.mem_cons.mp hc with h | h
      · subst h; exact Or.inl ha
      · rcases ih h with h2 | h2
        · exact Or.inl h2
        · right; rw [List.dropWhile_cons, if_pos ha]; exact h2
    · right
      rw [List.dropWhile_cons, if_neg ha]
      exact hc

theorem jsTrim_nil_all_ws (l : List Char) (h : jsTrim l = []) :
    ∀ c ∈ l, jsWhitespace c = true := by
  intro c hc
  unfold jsTrim trimRightWs trimLeftWs at h
  have h1 : (l.dropWhile jsWhitespace).reverse.dropWhile jsWhitespace = [] := by
    have := congrArg List.reverse h
    simpa using this
  have h2 : ∀ d ∈ l.dropWhile jsWhitespace, jsWhitespace d = true := by
    intro d hd
    have hd2 : d ∈ (l.dropWhile jsWhitespace).reverse := by simpa using hd
    rcases mem_or_mem_dropWhile jsWhitespace _ d hd2 with h3 | h3
    · exact h3
    · rw [h1] at h3; cases h3
  rcases mem_or_mem_dropWhile jsWhitespace l c hc with h3 | h3
  · exact h3
  · exact h2 c h3

theorem sanitize_nil_of_jsTrim_nil (l : List Char) (h : jsTrim l = []) :
    sanitizeContent l = [] := by
  unfold sanitizeContent
  apply allWs_jsTrim_nil
  intro c hc
  exact jsTrim_nil_all_ws l h c (List.mem_filter.mp hc).1

theorem match_line_nonblank (l : List Char)
    (h : (ANDROID_REGEX.timestampPat (sanitizeContent l)).isSome = true ∨
      (IOS_REGEX.timestampPat (sanitizeContent l)).isSome = true) :
    jsTrim l ≠ [] := by
  intro hnil
  rw [sanitize_nil_of_jsTrim_nil l hnil] at h
  rcases h with h | h <;> simp [ANDROID_REGEX.timestampPat, IOS_REGEX.timestampPat,
    expectDigits, expectChar, spanDigits] at h

theorem processLine_unknown_skip (now : Int) (k : Nat) (l : List Char)
    (hno : noMatchLine l) (hk : k + 1 ≤ 50) :
    processLine now ⟨Platform.unknown, [], [], [], k, false⟩ l =
      ⟨Platform.unknown, [], [], [], k + 1, false⟩ := by
  unfold processLine
  dsimp only
  rw [if_neg (by simp)]
  by_cases hb : jsTrim l = []
  · rw [if_pos ⟨hb, rfl⟩]
  · rw [if_neg (by rintro ⟨h1, _⟩; exact hb h1)]
    rw [if_pos rfl]
    simp only [hno.1, hno.2, Option.isSome_none, Bool.false_eq_true, if_false,
      eq_self_iff_true, if_true]
    rw [if_neg (by omega)]

theorem processLine_unknown_halt (now : Int) (k : Nat) (l : List Char)
    (hno : noMatchLine l) (hk : 50 < k + 1) (hnb : jsTrim l ≠ []) :
    processLine now ⟨Platform.unknown, [], [], [], k, false⟩ l =
      ⟨Platform.unknown, [], [], [formatWarning], k + 1, true⟩ := by
  unfold processLine
  dsimp only
  rw [if_neg (by simp)]
  rw [if_neg (by rintro ⟨h1, _⟩; exact hnb h1)]
  rw [if_pos rfl]
  simp only [hno.1, hno.2, Option.isSome_none, Bool.false_eq_true, if_false,
    eq_self_iff_true, if_true]
  rw [if_pos hk]
  rfl

theorem foldl_unknown_skip (now : Int) (ls : List (List Char)) :
    ∀ k : Nat, (∀ l ∈ ls, noMatchLine l) → k + ls.length ≤ 50 →
      ls.foldl (processLine now) ⟨Platform.unknown, [], [], [], k, false⟩ =
        ⟨Platform.unknown, [], [], [], k + ls.length, false⟩ := by
  induction ls with
  | nil => intro k _ _; simp
  | cons l ls ih =>
    intro k hno hk
    simp only [List.foldl_cons, List.length_cons]
    rw [processLine_unknown_skip now k l (hno l (by simp)) (by simp at hk; omega)]
    rw [ih (k + 1) (fun x hx => hno x (by simp [hx])) (by simp at hk; omega)]
    congr 1
    omega

theorem processLine_halted (now : Int) (st : ParseState) (l : List Char)
    (h : st.halted = true) : processLine now st l = st := by
  unfold processLine
  rw [if_pos h]

theorem foldl_halted (now : Int) (ls : List (List Char)) :
    ∀ st : ParseState, st.halted = true →
      ls.foldl (processLine now) st = st := by
  induction ls with
  | nil => intro st _; rfl
  | cons l ls ih =>
    intro st h
    simp only [List.foldl_cons]
    rw [processLine_halted now st l h]
    exact ih st h

theorem processLine_locked (now : Int) (st : ParseState) (l : List Char)
    (hplat : st.platform ≠ Platform.unknown) (hmsgs : st.msgsRev ≠ []) :
    (processLine now st l).warnings = st.warnings ∧
    (processLine now st l).platform = st.platform ∧
    (processLine now st l).msgsRev ≠ [] := by
  unfold processLine
  dsimp only
  by_cases hhalt : st.halted = true
  · rw [if_pos hhalt]; exact ⟨rfl, rfl, hmsgs⟩
  · rw [if_neg hhalt]
    rw [if_neg (by rintro ⟨_, h2⟩; exact hmsgs h2)]
    rw [if_neg hplat]
    rw [if_neg hplat]
    rcases hm : matcherFor st.platform (sanitizeContent l) with _ | ⟨dstr, tstr, body⟩
    · dsimp only
      rcases hrev : st.msgsRev with _ | ⟨last, restm⟩
      · exact absurd hrev hmsgs
      · exact ⟨rfl, rfl, by simp⟩
    · dsimp only
      rcases hs : senderAndMessage body with _ | ⟨sname, sbody⟩
      · exact ⟨rfl, rfl, by simp⟩
      · exact ⟨rfl, rfl, by simp⟩

theorem foldl_locked (now : Int) (ls : List (List Char)) :
    ∀ st : ParseState, st.platform ≠ Platform.unknown → st.msgsRev ≠ [] →
      (ls.foldl (processLine now) st).warnings = st.warnings ∧
      (ls.foldl (processLine now) st).platform = st.platform ∧
      (ls.foldl (processLine now) st).msgsRev ≠ [] := by
  induction ls with
  | nil => intro st _ hm; exact ⟨rfl, rfl, hm⟩
  | cons l ls ih =>
    intro st hplat hmsgs
    simp only [List.foldl_cons]
    obtain ⟨h1, h2, h3⟩ := processLine_locked now st l hplat hmsgs
    obtain ⟨g1, g2, g3⟩ := ih (processLine now st l) (by rw [h2]; exact hplat) h3
    exact ⟨g1.trans h1, g2.trans h2, g3⟩

theorem processLine_unknown_match (now : Int) (k : Nat) (l : List Char)
    (hsome : (ANDROID_REGEX.timestampPat (sanitizeContent l)).isSome = true ∨
      (IOS_REGEX.timestampPat (sanitizeContent l)).isSome = true) :
    (processLine now ⟨Platform.unknown, [], [], [], k, false⟩ l).platform ≠
      Platform.unknown ∧
    (processLine now ⟨Platform.unknown, [], [], [], k, false⟩ l).msgsRev ≠ [] ∧
    (processLine now ⟨Platform.unknown, [], [], [], k, false⟩ l).warnings = [] := by
  have hnb : jsTrim l ≠ [] := match_line_nonblank l hsome
  unfold processLine
  dsimp only
  rw [if_neg (by simp)]
  rw [if_neg (by rintro ⟨h1, _⟩; exact hnb h1)]
  rw [if_pos rfl]
  by_cases ha : (ANDROID_REGEX.timestampPat (sanitizeContent l)).isSome = true
  · rw [if_pos ha]
    rw [if_neg (by decide)]
    obtain ⟨trip, htrip⟩ := Option.isSome_iff_exists.mp ha
    obtain ⟨dstr, tstr, body⟩ := trip
    simp only [matcherFor]
    rw [htrip]
    dsimp only
    rcases hs : senderAndMessage body with _ | ⟨sname, sbody⟩
    · exact ⟨by decide, by simp, rfl⟩
    · exact ⟨by decide, by simp, rfl⟩
  · have hi : (IOS_REGEX.timestampPat (sanitizeContent l)).isSome = true :=
      hsome.resolve_left ha
    rw [if_neg ha, if_pos hi]
    rw [if_neg (by decide)]
    obtain ⟨trip, htrip⟩ := Option.isSome_iff_exists.mp hi
    obtain ⟨dstr, tstr, body⟩ := trip
    simp only [matcherFor]
    rw [htrip]
    dsimp only
    rcases hs : senderAndMessage body with _ | ⟨sname, sbody⟩
    · exact ⟨by decide, by simp, rfl⟩
    · exact ⟨by decide, by simp, rfl⟩

/-- Fifty junk lines followed by a valid Android head line on line 51. -/
def junk50HeadInput : List Char :=
  (List.replicate 50 ("x\n".toList)).flatten ++
    "01/01/2021, 10:00 - Bob: Hi".toList

/-- Fifty-one junk lines followed by one more junk line. -/
def junk51Input : List Char :=
  (List.replicate 51 ("x\n".toList)).flatten ++ "junk".toList

/-- C5 counterexample: an input stream in which none of the first 50 lines
matches either platform pattern, yet parseWhatsAppChat emits no warning at
all and produces a message — the match test on line 51 runs before the
line-budget check, so the platform still locks there. -/
theorem c5_counterexample_no_warning :
    (∀ l ∈ (splitLinesJs junk50HeadInput).take 50, noMatchLine l) ∧
    (parseWhatsAppChat junk50HeadInput "c.txt".toList 0).warnings = [] ∧
    (parseWhatsAppChat junk50HeadInput "c.txt".toList 0).messages ≠ [] := by
  decide

/-- C5 (amended): the format warning fires exactly when a 51st non-blank
line is reached with the platform still undetected and that line does not
match either; then parsing halts with that single warning and no messages.
Conversely a matching line at any position up to 51 (all earlier lines
unmatched) locks the platform, produces a message, and no warning is ever
emitted.  A stream that ends within 50 lines emits no warning (see the
counterexample). -/
theorem c5_recognition_window :
    (∀ (rawText fileName : List Char) (now : Int) (pre : List (List Char))
      (l51 : List Char) (rest : List (List Char)),
      splitLinesJs rawText = pre ++ l51 :: rest →
      pre.length = 50 →
      (∀ l ∈ pre, noMatchLine l) →
      noMatchLine l51 → jsTrim l51 ≠ [] →
      (parseWhatsAppChat rawText fileName now).warnings = [formatWarning] ∧
      (parseWhatsAppChat rawText fileName now).messages = []) ∧
    (∀ (rawText fileName : List Char) (now : Int) (pre : List (List Char))
      (lm : List Char) (rest : List (List Char)),
      splitLinesJs rawText = pre ++ lm :: rest →
      pre.length ≤ 50 →
      (∀ l ∈ pre, noMatchLine l) →
      ((ANDROID_REGEX.timestampPat (sanitizeContent lm)).isSome = true ∨
        (IOS_REGEX.timestampPat (sanitizeContent lm)).isSome = true) →
      (parseWhatsAppChat rawText fileName now).warnings = [] ∧
      (parseWhatsAppChat rawText fileName now).chat.sourcePlatform ≠
        Platform.unknown ∧
      (parseWhatsAppChat rawText fileName now).messages ≠ []) := by
  constructor
  · intro rawText fileName now pre l51 rest hsplit hlen hpre h51 hnb
    unfold parseWhatsAppChat
    dsimp only
    rw [hsplit, List.foldl_append]
    unfold initState
    rw [foldl_unknown_skip now pre 0 hpre (by omega)]
    simp only [List.foldl_cons]
    rw [show (0 + pre.length) = 50 by omega]
    rw [processLine_unknown_halt now 50 l51 h51 (by omega) hnb]
    rw [foldl_halted now rest _ rfl]
    exact ⟨rfl, rfl⟩
  · intro rawText fileName now pre lm rest hsplit hlen hpre hsome
    unfold parseWhatsAppChat
    dsimp only
    rw [hsplit, List.foldl_append]
    unfold initState
    rw [foldl_unknown_skip now pre 0 hpre (by omega)]
    simp only [List.foldl_cons]
    obtain ⟨hp, hm, hw⟩ := processLine_unknown_match now (0 + pre.length) lm hsome
    obtain ⟨g1, g2, g3⟩ := foldl_locked now rest _ hp hm
    refine ⟨?_, ?_, ?_⟩
    · rw [g1, hw]
    · rw [g2]; exact hp
    · simp only [ne_eq, List.reverse_eq_nil_iff]
      exact g3

theorem c5_recognition_window_witness :
    ((parseWhatsAppChat junk51Input "c.txt".toList 0).warnings =
        [formatWarning] ∧
      (parseWhatsAppChat junk51Input "c.txt".toList 0).messages = []) ∧
    ((parseWhatsAppChat junk50HeadInput "c.txt".toList 0).warnings = [] ∧
      (parseWhatsAppChat junk50HeadInput "c.txt".toList 0).chat.sourcePlatform ≠
        Platform.unknown ∧
      (parseWhatsAppChat junk50HeadInput "c.txt".toList 0).messages ≠ []) :=
  ⟨c5_recognition_window.1 junk51Input "c.txt".toList 0
      (List.replicate 50 "x".toList) "x".toList ["junk".toList]
      rfl rfl (by decide) (by decide) (by decide),
   c5_recognition_window.2 junk50HeadInput "c.txt".toList 0
      (List.replicate 50 "x".toList) "01/01/2021, 10:00 - Bob: Hi".toList []
      rfl (by simp) (by decide) (Or.inl (by decide))⟩

theorem c4_orphan_witness :
    (parseWhatsAppChat junk51Input "c.txt".toList 0).warnings =
      [formatWarning] ∧
    formatWarning = formatWarning :=
  ⟨by decide,
   c4_orphan_line_silently_skipped.2 junk51Input "c.txt".toList 0
    formatWarning (by decide)⟩

/-- A database row of the `chats` table. -/
structure ChatRow where
  id : Nat
  name : List Char
  sourcePlatform : Platform
  importDate : Int
  deriving DecidableEq, Repr

/-- A database row of the `senders` table (name is UNIQUE). -/
structure SenderRow where
  id : Nat
  name : List Char
  deriving DecidableEq, Repr

/-- A database row of the `messages` table (fields insertParsedChat sets). -/
structure MsgRow where
  id : Nat
  chatId : Nat
  senderId : Option Nat
  timestamp : Int
  content : List Char
  type : MessageType
  isMediaOmitted : Bool
  rawText : List Char
  deriving DecidableEq, Repr

/-- The visible state of the SQLite database, plus an operation counter
used to inject a failure at a chosen statement. -/
structure DBState where
  chats : List ChatRow
  senders : List SenderRow
  messages : List MsgRow
  nextChatId : Nat
  nextSenderId : Nat
  nextMsgId : Nat
  opCount : Nat
  deriving DecidableEq, Repr

/-- The single modelled failure kind: a constraint violation or I/O error
raised by a statement (which one is irrelevant to atomicity). -/
inductive DbErr where
  | injected
  deriving DecidableEq, Repr

/-- The database monad: each step returns a result or a thrown error,
together with the state as the statement left it (before any rollback). -/
def DbM (α : Type) : Type := DBState → Except DbErr α × DBState

instance : Monad DbM where
  pure a := fun s => (Except.ok a, s)
  bind x f := fun s =>
    match x s with
    | (Except.ok a, s') => f a s'
    | (Except.error e, s') => (Except.error e, s')

/-- Read the current database state. -/
def getDb : DbM DBState := fun s => (Except.ok s, s)

/-- Overwrite the database state. -/
def setDb (s' : DBState) : DbM Unit := fun _ => (Except.ok (), s')

/-- One executed SQL statement: bump the statement counter and fail if the
injected failure is scheduled for this statement. -/
def dbStep (failAt : Option Nat) : DbM Unit := fun s =>
  let s' := { s with opCount := s.opCount + 1 }
  if failAt = some s.opCount then (Except.error DbErr.injected, s')
  else (Except.ok (), s')

/-- Embedding of expo-sqlite `db.withTransactionAsync`: run the body; on
success commit its state, on a thrown error roll the database back to the
state at BEGIN and rethrow. -/
def withTransactionAsync {α : Type} (body : DbM α) : DbM α := fun s =>
  match body s with
  | (Except.ok a, s') => (Except.ok a, s')
  | (Except.error e, _) => (Except.error e, s)

/-- The chat INSERT of insertParsedChat (db.runAsync), returning
`lastInsertRowId`. -/
def insertChatRow (failAt : Option Nat) (c : Chat) : DbM Nat := do
  dbStep failAt
  let s ← getDb
  let newId := s.nextChatId
  setDb { s with
    chats := s.chats ++ [⟨newId, c.name, c.sourcePlatform, c.importDate⟩],
    nextChatId := newId + 1 }
  pure newId

/-- Lookup of a sender id by name (the SELECT in sender resolution). -/
def findSenderId (rows : List SenderRow) (nm : List Char) : Option Nat :=
  (rows.find? (fun r => r.name == nm)).map (fun r => r.id)

/-- Sender resolution loop of insertParsedChat: for each distinct sender
name, INSERT OR IGNORE then SELECT the id, building the name-to-id map
(and, as in the source, skipping the entry if the SELECT returns no row). -/
def resolveSenders (failAt : Option Nat) :
    List (List Char) → DbM (List (List Char × Nat))
  | [] => pure []
  | nm :: rest => do
    dbStep failAt
    let s ← getDb
    match findSenderId s.senders nm with
    | some _ => pure ()
    | none =>
      setDb { s with
        senders := s.senders ++ [⟨s.nextSenderId, nm⟩],
        nextSenderId := s.nextSenderId + 1 }
    dbStep failAt
    let s2 ← getDb
    let m ← resolveSenders failAt rest
    match findSenderId s2.senders nm with
    | some sid => pure ((nm, sid) :: m)
    | none => pure m

/-- The batch message INSERT loop of insertParsedChat: each statement binds
the resolved sender id (null for system-authored lines) and the parsed
fields. -/
def insertMessages (failAt : Option Nat) (chatId : Nat)
    (smap : List (List Char × Nat)) : List Message → DbM Unit
  | [] => pure ()
  | msg :: rest => do
    dbStep failAt
    let s ← getDb
    let sid : Option Nat :=
      if msg.rawSender ≠ sysSender ∧ (smap.lookup msg.rawSender).isSome then
        smap.lookup msg.rawSender
      else none
    setDb { s with
      messages := s.messages ++
        [⟨s.nextMsgId, chatId, sid, msg.timestamp, msg.content, msg.type,
          msg.isMediaOmitted, msg.rawText⟩],
      nextMsgId := s.nextMsgId + 1 }
    insertMessages failAt chatId smap rest

/-- The body of the transaction in insertParsedChat: chat insert, sender
resolution, and the whole message batch. -/
def insertParsedChatBody (failAt : Option Nat) (pr : ParseResult) : DbM Nat := do
  let chatId ← insertChatRow failAt pr.chat
  let smap ← resolveSenders failAt pr.senders
  insertMessages failAt chatId smap pr.messages
  pure chatId

/-- Embedding of `insertParsedChat` (src/db/db.ts lines 113-163): the chat
insert, sender resolution and batch message insert all run inside one
`withTransactionAsync`; the inserted chat id is returned. -/
def insertParsedChat (failAt : Option Nat) (pr : ParseResult) : DbM Nat :=
  withTransactionAsync (insertParsedChatBody failAt pr)

/-- C9: insertParsedChat is atomic — the chat insert, sender resolution and
whole message batch run inside one transaction, so whenever any statement
fails mid-batch the error propagates to the caller and the database state
afterward equals the state before the call: no chat row and no message
rows are visible. -/
theorem c9_insertParsedChat_atomic (failAt : Option Nat) (pr : ParseResult)
    (s : DBState) (e : DbErr)
    (h : (insertParsedChat failAt pr s).1 = Except.error e) :
    (insertParsedChat failAt pr s).2 = s := by
  unfold insertParsedChat withTransactionAsync at h ⊢
  rcases hb : insertParsedChatBody failAt pr s with ⟨r, s'⟩
  rw [hb] at h
  cases r with
  | ok a => exact Except.noConfusion h
  | error e' => rfl

/-- A one-message parse result used to exercise insertParsedChat. -/
def c9ExamplePR : ParseResult :=
  { chat := ⟨0, "Family".toList, Platform.android, 5⟩,
    messages := [⟨1, 0, 99, "Hi".toList, MessageType.text, false, 0,
      "raw".toList, "Bob".toList⟩],
    senders := ["Bob".toList],
    warnings := [] }

/-- The empty database. -/
def c9EmptyDb : DBState := ⟨[], [], [], 1, 1, 1, 0⟩

theorem c9_insertParsedChat_atomic_witness :
    (insertParsedChat (some 2) c9ExamplePR c9EmptyDb).1 =
      Except.error DbErr.injected ∧
    (insertParsedChat (some 2) c9ExamplePR c9EmptyDb).2 = c9EmptyDb :=
  ⟨rfl,
   c9_insertParsedChat_atomic (some 2) c9ExamplePR c9EmptyDb DbErr.injected
    rfl⟩
